import Mathlib

/-!
Verification of the restaurant-recommendation bot (`src/main.py`).

The development shallowly embeds the text-matching and filtering pipeline of
`main.py` over `Str := List Char`.  Python strings are lists of characters,
`str.lower()` is modelled for the Latin and Cyrillic alphabets that occur in
the data, `x in y` (substring test) is `strIn`, `re.search(r'\b…\b', t)` is
`reSearchWB`, and `fuzz.ratio` is modelled by the indel similarity
`2·LCS(a,b)·100/(|a|+|b|)` rounded half-to-even, which is the value computed
by the python-Levenshtein backend of fuzzywuzzy (all concrete inputs used
below are far from the 80/85 thresholds, where the difflib backend agrees).
Floats are modelled exactly: matcher confidences are stored ×1000 as
naturals (1.0 → 1000, 0.9 → 900, the fuzzy `ratio/100·0.8` → `ratio·8`),
analyzer weights ×2 (3.0 → 6, 2.5 → 5, 2.0 → 4, 1.5 → 3), so sums and
comparisons are exact; the analyzer's `score ≥ topScore·0.7` is rendered
over half-point units as `7·top ≤ 10·score`, equivalent over the exact
values (the float evaluation of `top*0.7` differs from the exact rational
by < 1e-15 while distinct comparands are ≥ 0.05 apart).  The fallback
selector's score, which mixes a real-valued random perturbation, keeps
`Rat`.
-/

/-- Characters of a Python string. -/
abbrev Str := List Char

/-- Shorthand turning a Lean string literal into its character list. -/
def s (x : String) : Str := x.toList

/-- An apostrophe character (U+0027), used inside several Ukrainian words. -/
def ap : Char := Char.ofNat 39

/-- Model of `str.lower()` for ASCII and the Cyrillic block used by the data:
upper-case ASCII and the ranges U+0400–U+042F (and Ґ U+0490) map to their
lower-case forms exactly as in Python; every other character is unchanged. -/
def lowerChar (c : Char) : Char :=
  if 65 ≤ c.toNat ∧ c.toNat ≤ 90 then Char.ofNat (c.toNat + 32)
  else if 1040 ≤ c.toNat ∧ c.toNat ≤ 1071 then Char.ofNat (c.toNat + 32)
  else if 1024 ≤ c.toNat ∧ c.toNat ≤ 1039 then Char.ofNat (c.toNat + 80)
  else if c.toNat = 1168 then Char.ofNat 1169
  else c

/-- Model of `str.lower()` on a whole string. -/
def lowerStr (t : Str) : Str := t.map lowerChar

/-- Whitespace characters recognised by `str.split()` / `str.strip()`
for the texts in play (space, tab, newline, carriage return, \x0b, \x0c). -/
def isSpaceChar (c : Char) : Bool :=
  c == ' ' || c == '\t' || c == '\n' || c == '\r' || c.toNat == 11 || c.toNat == 12

/-- Helper for `pySplit`: accumulates the current word (reversed). -/
def pySplitAux : Str → Str → List Str
  | [], acc => if acc.isEmpty then [] else [acc.reverse]
  | c :: cs, acc =>
    if isSpaceChar c then
      if acc.isEmpty then pySplitAux cs [] else acc.reverse :: pySplitAux cs []
    else pySplitAux cs (c :: acc)

/-- Model of Python `str.split()` (no argument): split on runs of whitespace,
dropping empty pieces. -/
def pySplit (t : Str) : List Str := pySplitAux t []

/-- Model of Python `str.strip()`: remove leading and trailing whitespace. -/
def pyStrip (t : Str) : Str :=
  ((t.dropWhile isSpaceChar).reverse.dropWhile isSpaceChar).reverse

/-- Model of Python `str.split('\n')` (keeps empty pieces). -/
def splitNL : Str → List Str
  | [] => [[]]
  | c :: cs =>
    if c == '\n' then [] :: splitNL cs
    else match splitNL cs with
         | [] => [[c]]
         | w :: ws => (c :: w) :: ws

/-- Model of the Python substring test `needle in hay` for strings. -/
def strIn (n : Str) : Str → Bool
  | [] => n.isEmpty
  | c :: t => n.isPrefixOf (c :: t) || strIn n t

/-- Word characters for Python's `\w` (`re.UNICODE` default) restricted to the
alphabets appearing in the data: ASCII letters, digits, underscore, and the
Cyrillic block U+0400–U+04FF. -/
def isWordChar (c : Char) : Bool :=
  (48 ≤ c.toNat && c.toNat ≤ 57) || (65 ≤ c.toNat && c.toNat ≤ 90) ||
  (97 ≤ c.toNat && c.toNat ≤ 122) || c == '_' ||
  (1024 ≤ c.toNat && c.toNat ≤ 1279)

/-- Whether the character just before position `i` of `t` is a word character
(positions outside the string count as non-word). -/
def wordBefore (t : Str) : Nat → Bool
  | 0 => false
  | j + 1 => isWordChar (t.getD j ' ')

/-- Python's `\b` assertion at position `i` of `t`: the wordness of the
character before `i` differs from the wordness of the character at `i`. -/
def wbAt (t : Str) (i : Nat) : Bool :=
  wordBefore t i != isWordChar (t.getD i ' ')

/-- Model of `re.search(r'\b' + re.escape(kw) + r'\b', t) is not None`
(the keyword is escaped, so matching is literal). -/
def reSearchWB (kw t : Str) : Bool :=
  (List.range (t.length + 1)).any fun i =>
    kw.isPrefixOf (t.drop i) && wbAt t i && wbAt t (i + kw.length)

/-- One row-update step of the longest-common-subsequence dynamic program.
Arguments: current character of `b`, remaining characters of `a`, the
remainder of the previous row (head is the cell above), the diagonal cell and
the cell to the left. -/
def lcsRowAux (c : Char) : List Char → List Nat → Nat → Nat → List Nat
  | [], _, _, _ => []
  | _, [], _, _ => []
  | x :: xs, up :: prest, diag, left =>
    let v := if x == c then diag + 1 else max left up
    v :: lcsRowAux c xs prest up v

/-- Next full row of the LCS dynamic program given the previous row. -/
def lcsRow (c : Char) (a : List Char) (prev : List Nat) : List Nat :=
  match prev with
  | [] => []
  | d :: rest => 0 :: lcsRowAux c a rest d 0

/-- Length of the longest common subsequence of two character lists. -/
def lcs (a b : List Char) : Nat :=
  (b.foldl (fun row c => lcsRow c a row) (List.replicate (a.length + 1) 0)).getLastD 0

/-- Python `int(round(num/den))` with round-half-to-even, for `den > 0`. -/
def pyRound (num den : Nat) : Nat :=
  let q := num / den
  let r := num % den
  if 2 * r < den then q
  else if den < 2 * r then q + 1
  else if q % 2 == 0 then q else q + 1

/-- Model of `fuzz.ratio(a, b)`: the indel similarity
`round(100 · 2·LCS(a,b) / (|a|+|b|))`, the value returned by the
python-Levenshtein backend of fuzzywuzzy. -/
def fuzzScore (a b : Str) : Nat :=
  let t := a.length + b.length
  if t == 0 then 100 else pyRound (200 * lcs a b) t

/-! ### Configuration (`ENHANCED_SEARCH_CONFIG`, lines 38–46) and
`FUZZY_AVAILABLE` (the fuzzywuzzy import succeeds in the deployment). -/

/-- `ENHANCED_SEARCH_CONFIG['enabled']`. -/
def cfgEnabled : Bool := true
/-- `ENHANCED_SEARCH_CONFIG['fuzzy_matching']`. -/
def cfgFuzzyMatching : Bool := true
/-- `ENHANCED_SEARCH_CONFIG['fuzzy_threshold']`. -/
def cfgFuzzyThreshold : Nat := 80
/-- `ENHANCED_SEARCH_CONFIG['regex_boundaries']`. -/
def cfgRegexBoundaries : Bool := true
/-- `ENHANCED_SEARCH_CONFIG['negation_detection']`. -/
def cfgNegationDetection : Bool := true
/-- `ENHANCED_SEARCH_CONFIG['extended_synonyms']`. -/
def cfgExtendedSynonyms : Bool := true
/-- `ENHANCED_SEARCH_CONFIG['fallback_to_old']`. -/
def cfgFallbackToOld : Bool := true
/-- `FUZZY_AVAILABLE`: fuzzywuzzy imports successfully. -/
def fuzzyAvailable : Bool := true

/-! ### Static word tables of `EnhancedRestaurantBot.__init__` -/

/-- The word `кав'ярня` (contains an apostrophe). -/
def kavYarnya : Str := s "кав" ++ ap :: s "ярня"
/-- The word `сім'я`. -/
def simYa : Str := s "сім" ++ ap :: s "я"
/-- The phrase `для всієї сім'ї`. -/
def dlyaVsiyeyiSimYi : Str := s "для всієї сім" ++ ap :: s "ї"
/-- The word `м'ясо`. -/
def mYaso : Str := s "м" ++ ap :: s "ясо"

/-- `self.extended_synonyms` (lines 62–78): base word and synonym list,
in insertion order. -/
def extendedSynonyms : List (Str × List Str) :=
  [ (s "ресторан", [s "ресторан", s "ресторани", s "ресторанчик", s "їдальня", s "заклад"]),
    (kavYarnya, [kavYarnya, s "кафе", s "кава", s "каварня", s "coffee", s "кофе"]),
    (s "піца", [s "піца", s "піцца", s "pizza", s "піци", s "піззу"]),
    (s "суші", [s "суші", s "sushi", s "роли", s "роллы", s "сашімі"]),
    (s "бургер", [s "бургер", s "burger", s "гамбургер", s "чізбургер"]),
    (s "романтик", [s "романтик", s "романтичний", s "побачення", s "інтимний", s "затишний", s "свічки"]),
    (s "сімейний", [s "сімейний", simYa, s "родина", s "діти", s "дитячий", dlyaVsiyeyiSimYi]),
    (s "веселий", [s "веселий", s "жвавий", s "енергійний", s "гучний", s "драйвовий", s "молодіжний"]),
    (s "швидко", [s "швидко", s "швидку", s "швидкий", s "fast", s "перекус", s "поспішаю", s "на швидку руку"]),
    (s "доставка", [s "доставка", s "додому", s "не хочу йти", s "привезти", s "delivery"]) ]

/-- `self.negation_words` (lines 81–84). -/
def negationWords : List Str :=
  [ s "не", s "ні", s "ніколи", s "ніде", s "без", s "нема", s "немає",
    s "не хочу", s "не люблю", s "не подобається", s "не треба" ]

/-! ### `_check_synonyms` (lines 463–477) -/

/-- Embeds the return value of `_check_synonyms`: the Python function body
builds `found_synonyms` and `max_confidence` but has **no return statement**,
so the call always evaluates to `None`. -/
def checkSynonyms (_userText _keyword : Str) : Option (Bool × Nat × List Str) :=
  none

/-- The local state `(found_synonyms, max_confidence)` that the body of
`_check_synonyms` has computed when it falls off the end without returning
(lines 466–477): for every synonym group containing the keyword, every
synonym of the group occurring in `userText` is recorded with
confidence 0.8 (stored ×1000 as 800). -/
def checkSynonymsLocals (userText keyword : Str) : List Str × Nat :=
  extendedSynonyms.foldl
    (fun acc g =>
      if (g.2.map lowerStr).contains (lowerStr keyword) then
        g.2.foldl
          (fun acc2 syn =>
            if strIn (lowerStr syn) userText then
              (acc2.1 ++ [syn], max acc2.2 800)
            else acc2)
          acc
      else acc)
    ([], 0)

/-! ### `_has_negation_near_keywords` (lines 436–461) -/

/-- Token positions whose word contains some keyword as a substring or
fuzzily resembles it (ratio > 85); lines 442–446. -/
def keywordPositions (words : List Str) (keywords : List Str) : List Nat :=
  (List.range words.length).filter fun i =>
    keywords.any fun kw =>
      strIn (lowerStr kw) (words.getD i []) ||
      (fuzzyAvailable && 85 < fuzzScore (lowerStr kw) (words.getD i []))

/-- Embeds `_has_negation_near_keywords(user_text, keywords, window)`:
whether a negation word occurs within `window` tokens of a token matching
some keyword (lines 436–461). -/
def hasNegationNearKeywords (userText : Str) (keywords : List Str) (window : Nat) : Bool :=
  let words := pySplit (lowerStr userText)
  (keywordPositions words keywords).any fun pos =>
    let start := pos - window
    let stop := min words.length (pos + window + 1)
    (List.range' start (stop - start)).any fun i =>
      decide (i ≠ pos) &&
      negationWords.any fun neg =>
        strIn neg (words.getD i []) || strIn (words.getD i []) neg

/-! ### `_enhanced_keyword_match` (lines 365–434) -/

/-- The arrow character used in synonym evidence strings `kw→syn`. -/
def arrowChar : Char := Char.ofNat 8594

/-- Per-keyword contribution of the main loop of `_enhanced_keyword_match`
(lines 388–432): returns (confidence ×1000, any-match flag, evidence
strings).  Confidence 1.0 is 1000, 0.9 is 900, and the fuzzy confidence
`ratio/100 · 0.8` is `ratio · 8` exactly.  The exact/boundary branch, the
fuzzy `elif`, and the synonym step (whose `_check_synonyms` call returns
`None`, raising on unpacking; the exception is swallowed by the `except` at
line 429, so the some-branch below is dead code transcribing lines 424–428,
with the 0.7 discount as `·7/10`) are reproduced in order. -/
def keywordContribution (userLower : Str) (kw : Str) : Nat × Bool × List Str :=
  let kwL := lowerStr kw
  let base : Nat × Bool × List Str :=
    if strIn kwL userLower then
      if cfgRegexBoundaries then
        if reSearchWB kwL userLower then (1000, true, [kw]) else (0, false, [])
      else (900, true, [kw])
    else if cfgFuzzyMatching && fuzzyAvailable then
      (pySplit userLower).foldl
        (fun acc w =>
          if 2 < w.length && 2 < kwL.length &&
             cfgFuzzyThreshold ≤ fuzzScore kwL w then
            (max acc.1 (fuzzScore kwL w * 8), true,
             acc.2.2 ++ [kw ++ '~' :: w])
          else acc)
        (0, false, [])
    else (0, false, [])
  if cfgExtendedSynonyms then
    match checkSynonyms userLower kw with
    | none => base
    | some (sm, sc, sw) =>
      if sm then
        (max base.1 (sc * 7 / 10), true,
         base.2.2 ++ sw.map (fun x => kw ++ arrowChar :: x))
      else base
  else base

/-- Embeds `_enhanced_keyword_match(user_text, keywords)`: returns
(matched, confidence, evidence).  With the enhanced config disabled the old
plain-substring logic is used; otherwise negation suppresses everything,
and each keyword contributes through `keywordContribution`. -/
def enhancedKeywordMatch (userText : Str) (keywords : List Str) : Bool × Nat × List Str :=
  if !cfgEnabled then
    let oldMatch := keywords.any fun kw => strIn kw (lowerStr userText)
    (oldMatch, if oldMatch then 1000 else 0, [])
  else if cfgNegationDetection && hasNegationNearKeywords userText keywords 5 then
    (false, 0, [])
  else
    let userLower := lowerStr userText
    keywords.foldl
      (fun acc kw =>
        let c := keywordContribution userLower kw
        (acc.1 || c.2.1, max acc.2.1 c.1, acc.2.2 ++ c.2.2))
      (false, 0, [])

/-! ### Catalog entries

A catalog entry is one record of `worksheet.get_all_records()`: a dict whose
keys are the sheet's header row.  All columns referenced by the code are
modelled as always-present string fields (matching `restaurant.get(key, d)`),
except `тип закладу`, which exists only in some eras of the sheet and is
therefore an `Option` (the code reads
`restaurant.get('тип закладу', restaurant.get('type', …))`). -/

/-- One catalog entry (a row of the catalog sheet). -/
structure Restaurant where
  rname : Str
  address : Str
  socials : Str
  vibe : Str
  aim : Str
  cuisine : Str
  menu : Str
  menuUrl : Str
  photo : Str
  typeCol : Str
  typeUkr : Option Str
deriving DecidableEq

/-- A default (all-empty) entry, used only as the `getD` fallback. -/
def emptyRestaurant : Restaurant := ⟨[], [], [], [], [], [], [], [], [], [], none⟩

instance : Inhabited Restaurant := ⟨emptyRestaurant⟩

/-- `restaurant.get('тип закладу', restaurant.get('type', ''))`. -/
def typeField (r : Restaurant) : Str :=
  match r.typeUkr with
  | some t => t
  | none => r.typeCol

/-- Dict lookup `restaurant.get(column, '')` for the column names used by
`_comprehensive_content_analysis`. -/
def getColumn (r : Restaurant) (c : Str) : Str :=
  if c = s "menu" then r.menu
  else if c = s "aim" then r.aim
  else if c = s "vibe" then r.vibe
  else if c = s "cuisine" then r.cuisine
  else if c = s "name" then r.rname
  else if c = s "type" then r.typeCol
  else if c = s "тип закладу" then (match r.typeUkr with | some t => t | none => [])
  else []

/-! ### `_check_dish_availability` (lines 244–363) and
`_get_dish_keywords` (lines 650–677); the two `food_keywords` dicts in the
source are character-for-character identical. -/

/-- The `food_keywords` dish/synonym table. -/
def foodKeywordsFull : List (Str × List Str) :=
  [ (s "піца", [s "піца", s "піцц", s "pizza", s "піци", s "піззу"]),
    (s "паста", [s "паста", s "спагеті", s "pasta", s "спагетті", s "макарони"]),
    (s "бургер", [s "бургер", s "burger", s "гамбургер", s "чізбургер"]),
    (s "суші", [s "суші", s "sushi", s "роли", s "ролл", s "сашімі"]),
    (s "салат", [s "салат", s "salad"]),
    (s "хумус", [s "хумус", s "hummus"]),
    (s "фалафель", [s "фалафель", s "falafel"]),
    (s "шаурма", [s "шаурм", s "shawarma", s "шаверма"]),
    (s "стейк", [s "стейк", s "steak", mYaso, s "біфштекс"]),
    (s "риба", [s "риба", s "fish", s "лосось", s "семга", s "тунець", s "форель"]),
    (s "курка", [s "курк", s "курчат", s "chicken", s "курица"]),
    (s "десерт", [s "десерт", s "торт", s "тірамісу", s "морозиво", s "чізкейк", s "тістечко"]),
    (s "мідії", [s "мідії", s "мидии", s "мідія", s "молюски", s "мідій"]),
    (s "креветки", [s "креветки", s "креветка", s "shrimp", s "prawns"]),
    (s "устриці", [s "устриці", s "устрица", s "oysters"]),
    (s "каламари", [s "каламари", s "кальмари", s "squid"]),
    (s "равіолі", [s "равіолі", s "ravioli", s "равиоли"]),
    (s "лазанья", [s "лазанья", s "lasagna", s "лазања"]),
    (s "різотто", [s "різотто", s "risotto", s "ризотто"]),
    (s "гнокі", [s "гноки", s "gnocchi", s "ньокі"]),
    (s "тартар", [s "тартар", s "tartar"]),
    (s "карпачо", [s "карпачо", s "carpaccio"]) ]

/-- Embeds `_get_dish_keywords(dish)`: `food_keywords.get(dish, [dish])`. -/
def getDishKeywords (dish : Str) : List Str :=
  match foodKeywordsFull.find? (fun d => d.1 == dish) with
  | some d => d.2
  | none => [dish]

/-- Whether the user mentioned a dish (lines 282–317): a keyword matches the
request by word-boundary regex (substring if boundaries are disabled) or, if
not, some request word of length > 3 fuzzily matches a keyword of length > 3
with ratio ≥ 85. -/
def dishDetected (userLower : Str) (kws : List Str) : Bool :=
  (kws.any fun kw =>
    if cfgEnabled && cfgRegexBoundaries then reSearchWB (lowerStr kw) userLower
    else strIn (lowerStr kw) userLower) ||
  (cfgFuzzyMatching && fuzzyAvailable &&
    (pySplit userLower).any fun w =>
      3 < w.length && kws.any fun kw => 3 < kw.length && 85 ≤ fuzzScore (lowerStr kw) w)

/-- The dishes mentioned in the request, in table order (lines 281–317). -/
def requestedDishes (userRequest : Str) : List Str :=
  (foodKeywordsFull.filter fun d => dishDetected (lowerStr userRequest) d.2).map (·.1)

/-- Whether some entry's menu contains one of the dish keywords
(lines 328–350). -/
def dishFoundInAnyRestaurant (data : List Restaurant) (kws : List Str) : Bool :=
  data.any fun r => kws.any fun kw =>
    if cfgRegexBoundaries then reSearchWB (lowerStr kw) (lowerStr r.menu)
    else strIn (lowerStr kw) (lowerStr r.menu)

/-- Embeds `_check_dish_availability(user_request)` over catalog `data`:
returns `(dish available in some menu, dishes)` where `dishes` is the list of
found dishes if any, otherwise the full requested list (lines 244–363). -/
def checkDishAvailability (userRequest : Str) (data : List Restaurant) : Bool × List Str :=
  if (requestedDishes userRequest).isEmpty then (false, [])
  else if ((requestedDishes userRequest).filter fun dish =>
      dishFoundInAnyRestaurant data (getDishKeywords dish)).isEmpty then
    (false, requestedDishes userRequest)
  else
    (true, (requestedDishes userRequest).filter fun dish =>
      dishFoundInAnyRestaurant data (getDishKeywords dish))

/-! ### `_comprehensive_content_analysis` (lines 479–648) -/

/-- One criterion of the `search_criteria` table: name, keywords, target
columns, weight.  Weights are stored in half-point units (twice the float of
the source: 3.0 → 6, 2.5 → 5, 2.0 → 4, 1.5 → 3), which is exact. -/
structure Criterion where
  cname : Str
  keywords : List Str
  columns : List Str
  weight : Nat
deriving DecidableEq

/-- The `search_criteria` table (lines 490–592). -/
def searchCriteria : List Criterion :=
  [ ⟨s "матча", [s "матча", s "matcha", s "матчі", s "матчу"],
     [s "menu", s "aim", s "vibe", s "cuisine", s "name"], 6⟩,
    ⟨s "кава", [s "кава", s "кофе", s "coffee", s "капучіно", s "латте", s "еспресо"],
     [s "menu", s "aim", s "cuisine", s "name"], 5⟩,
    ⟨s "піца", [s "піца", s "піцц", s "pizza"],
     [s "menu", s "cuisine", s "name"], 6⟩,
    ⟨s "суші", [s "суші", s "sushi", s "роли", s "ролл", s "сашімі"],
     [s "menu", s "cuisine", s "name"], 6⟩,
    ⟨s "паста", [s "паста", s "pasta", s "спагеті"],
     [s "menu", s "cuisine"], 5⟩,
    ⟨s "мідії", [s "мідії", s "мідія", s "мідій", s "молюски"],
     [s "menu", s "cuisine"], 6⟩,
    ⟨s "ресторан", [s "ресторан", s "ресторани", s "їдальня"],
     [s "type", s "тип закладу", s "aim"], 4⟩,
    ⟨kavYarnya, [kavYarnya, s "кафе", s "coffee shop"],
     [s "type", s "тип закладу", s "aim"], 4⟩,
    ⟨s "романтично", [s "романт", s "побачення", s "інтимн", s "затишн"],
     [s "vibe", s "aim"], 4⟩,
    ⟨s "сімейно", [simYa, s "сімейн", s "діти", s "родин"],
     [s "vibe", s "aim"], 4⟩,
    ⟨s "друзі", [s "друз", s "компан", s "гурт"],
     [s "aim", s "vibe"], 4⟩,
    ⟨s "працювати", [s "працювати", s "попрацювати", s "робота", s "ноутбук"],
     [s "aim"], 5⟩,
    ⟨s "сніданок", [s "сніданок", s "ранок", s "зранку"],
     [s "aim", s "menu"], 4⟩,
    ⟨s "обід", [s "обід", s "пообідати"],
     [s "aim"], 3⟩,
    ⟨s "вечеря", [s "вечер", s "повечеряти"],
     [s "aim"], 3⟩,
    ⟨s "італійський", [s "італ", s "italian", s "італійськ"],
     [s "cuisine", s "vibe", s "name"], 4⟩,
    ⟨s "японський", [s "япон", s "japanese", s "азійськ"],
     [s "cuisine", s "vibe"], 4⟩,
    ⟨s "грузинський", [s "грузин", s "georgian"],
     [s "cuisine", s "vibe", s "name"], 4⟩ ]

/-- `user_has_criterion` (line 608): some criterion keyword occurs in the
lower-cased request. -/
def userHasCriterion (userLower : Str) (c : Criterion) : Bool :=
  c.keywords.any fun kw => strIn kw userLower

/-- `restaurant_has_criterion` (lines 612–620): some keyword occurs in some
designated column of the entry. -/
def restaurantHasCriterion (r : Restaurant) (c : Criterion) : Bool :=
  c.columns.any fun col => c.keywords.any fun kw => strIn kw (lowerStr (getColumn r col))

/-- The per-entry accumulation of `(total_score, matched_criteria)`
(lines 598–624). -/
def entryScoreImpl (userLower : Str) (r : Restaurant) : Nat × List Str :=
  searchCriteria.foldl
    (fun acc c =>
      if userHasCriterion userLower c && restaurantHasCriterion r c then
        (acc.1 + c.weight, acc.2 ++ [c.cname])
      else acc)
    (0, [])

/-- A scored entry as appended to `restaurant_scores` (lines 626–631). -/
structure ScoredRestaurant where
  restaurant : Restaurant
  score : Nat
  criteria : List Str
deriving DecidableEq

/-- Descending order on scored entries (`sort(key=score, reverse=True)`);
Python's stable sort is extensionally `List.insertionSort` with this
relation. -/
def scoreGE (a b : ScoredRestaurant) : Prop := b.score ≤ a.score

instance : DecidableRel scoreGE := fun a b => inferInstanceAs (Decidable (b.score ≤ a.score))

instance : IsTotal ScoredRestaurant scoreGE := ⟨fun a b => Nat.le_total b.score a.score⟩

instance : IsTrans ScoredRestaurant scoreGE := ⟨fun _ _ _ h h' => Nat.le_trans h' h⟩

/-- The list `restaurant_scores` before sorting: entries with positive score,
in catalog order (lines 595–632). -/
def scoredOf (userRequest : Str) (data : List Restaurant) : List ScoredRestaurant :=
  data.filterMap fun r =>
    if 0 < (entryScoreImpl (lowerStr userRequest) r).1 then
      some ⟨r, (entryScoreImpl (lowerStr userRequest) r).1,
            (entryScoreImpl (lowerStr userRequest) r).2⟩
    else none

/-- Embeds `_comprehensive_content_analysis(user_request)` over catalog
`data`: scores every entry, sorts descending, and keeps the entries scoring
at least 70 % of the top score (lines 479–648). -/
def comprehensiveContentAnalysis (userRequest : Str) (data : List Restaurant) :
    Bool × List ScoredRestaurant × Str :=
  let sorted := List.insertionSort scoreGE (scoredOf userRequest data)
  match sorted with
  | [] => (false, [], s "не знайдено специфічних критеріїв")
  | top :: rest =>
    let tops := (top :: rest).filter fun x => decide (7 * top.score ≤ 10 * x.score)
    (true, tops,
     s "знайдено " ++ Nat.toDigits 10 tops.length ++ s " закладів що відповідають критеріям")

/-! ### `_enhanced_filter_by_establishment_type` (lines 679–763) and the old
`_filter_by_establishment_type` (lines 766–814) -/

/-- One category of a type-keyword table: category name, user keywords,
establishment types. -/
structure TypeCategory where
  tname : Str
  userKeywords : List Str
  establishmentTypes : List Str
deriving DecidableEq

/-- `enhanced_type_keywords` (lines 688–705). -/
def enhancedTypeKeywords : List TypeCategory :=
  [ ⟨s "ресторан",
     [s "ресторан", s "ресторани", s "ресторанчик", s "обід", s "вечеря", s "побачення",
      s "романтик", s "святкування", s "банкет", s "посідіти", s "поїсти", s "заклад"],
     [s "ресторан"]⟩,
    ⟨kavYarnya,
     [s "кава", s "капучіно", s "латте", s "еспресо", kavYarnya, s "десерт", s "тірамісу",
      s "круасан", s "випити кави", s "кофе", s "кафе", s "coffee"],
     [kavYarnya, s "кафе"]⟩,
    ⟨s "to-go",
     [s "швидко", s "на винос", s "перекус", s "поспішаю", s "to-go", s "takeaway",
      s "на швидку руку", s "перехопити"],
     [s "to-go", s "takeaway"]⟩,
    ⟨s "доставка",
     [s "доставка", s "додому", s "замовити", s "привезти", s "delivery",
      s "не хочу йти", s "вдома"],
     [s "доставка", s "delivery"]⟩ ]

/-- `type_keywords` of the old filter (lines 772–789). -/
def oldTypeKeywords : List TypeCategory :=
  [ ⟨s "ресторан",
     [s "ресторан", s "обід", s "вечеря", s "побачення", s "романтик", s "святкув",
      s "банкет", s "посідіти", s "поїсти"],
     [s "ресторан"]⟩,
    ⟨kavYarnya,
     [s "кава", s "капучіно", s "латте", s "еспресо", kavYarnya, s "десерт", s "тірамісу",
      s "круасан", s "випити кави", s "кофе", s "кафе"],
     [kavYarnya, s "кафе"]⟩,
    ⟨s "to-go",
     [s "швидко", s "на винос", s "перекус", s "поспішаю", s "to-go", s "takeaway",
      s "на швидку руку", s "перехопити"],
     [s "to-go", s "takeaway"]⟩,
    ⟨s "доставка",
     [s "доставка", s "додому", s "замовити", s "привезти", s "delivery", s "не хочу йти"],
     [s "доставка", s "delivery"]⟩ ]

/-- Detected establishment types of the enhanced filter (lines 708–725):
the concatenated `establishment_types` of every category whose user keywords
match the request through `_enhanced_keyword_match`. -/
def detectedTypesEnhanced (userRequest : Str) : List Str :=
  (enhancedTypeKeywords.filter fun c => (enhancedKeywordMatch userRequest c.userKeywords).1).flatMap
    (·.establishmentTypes)

/-- Detected establishment types of the old filter (lines 792–797):
plain substring matching of the user keywords. -/
def detectedTypesOld (userRequest : Str) : List Str :=
  (oldTypeKeywords.filter fun c =>
      c.userKeywords.any fun kw => strIn kw (lowerStr userRequest)).flatMap
    (·.establishmentTypes)

/-- The bidirectional type comparison of both filters (lines 740–744 and
808–809): the entry's normalised type contains, or is contained in, some
detected type. -/
def typeMatches (detected : List Str) (r : Restaurant) : Bool :=
  let et := pyStrip (lowerStr (typeField r))
  detected.any fun d =>
    let dt := pyStrip (lowerStr d)
    strIn dt et || strIn et dt

/-- Embeds the old `_filter_by_establishment_type(user_request, l)`
(lines 766–814): keep entries matching a detected type, falling back to the
whole list when no type is detected or nothing matches. -/
def filterByEstablishmentType (userRequest : Str) (l : List Restaurant) : List Restaurant :=
  let detected := detectedTypesOld userRequest
  if detected.isEmpty then l
  else
    let filtered := l.filter (typeMatches detected)
    if filtered.isEmpty then l else filtered

/-- Embeds `_enhanced_filter_by_establishment_type(user_request, l)`
(lines 679–763): detect types with the enhanced matcher, filter, and on an
empty result fall back to the old filter (config `fallback_to_old`), else to
the unfiltered list. -/
def enhancedFilterByEstablishmentType (userRequest : Str) (l : List Restaurant) :
    List Restaurant :=
  if l.isEmpty then l
  else if (detectedTypesEnhanced userRequest).isEmpty then l
  else if (l.filter (typeMatches (detectedTypesEnhanced userRequest))).isEmpty &&
      cfgFallbackToOld then
    filterByEstablishmentType userRequest l
  else if (l.filter (typeMatches (detectedTypesEnhanced userRequest))).isEmpty then l
  else l.filter (typeMatches (detectedTypesEnhanced userRequest))

/-! ### `_filter_by_context` (lines 921–991) -/

/-- One context category: name, user keywords, restaurant keywords. -/
structure ContextCategory where
  ctxName : Str
  userKeywords : List Str
  restaurantKeywords : List Str
deriving DecidableEq

/-- `context_filters` (lines 926–951). -/
def contextFilters : List ContextCategory :=
  [ ⟨s "romantic",
     [s "романт", s "побачен", s "двох", s "інтимн", s "затишн", s "свічки", s "романс"],
     [s "інтимн", s "романт", s "для пар", s "камерн", s "приват"]⟩,
    ⟨s "family",
     [s "сім", s "діт", s "родин", s "батьк", s "мам", s "дитин"],
     [s "сімейн", s "діт", s "родин", s "для всієї сім"]⟩,
    ⟨s "business",
     [s "діл", s "зустріч", s "перегов", s "бізнес", s "робоч", s "офіс"],
     [s "діл", s "зустріч", s "бізнес", s "перегов", s "офіц"]⟩,
    ⟨s "friends",
     [s "друз", s "компан", s "гуртом", s "весел", s "тусовк"],
     [s "компан", s "друз", s "молодіжн", s "весел", s "гучн"]⟩,
    ⟨s "celebration",
     [s "святкув", s "день народж", s "ювіле", s "свято", s "торжеств"],
     [s "святков", s "простор", s "банкет", s "торжеств", s "груп"]⟩,
    ⟨s "quick",
     [s "швидк", s "перекус", s "фаст", s "поспіша", s "на швидку руку"],
     [s "швидк", s "casual", s "фаст", s "перекус"]⟩ ]

/-- The contexts detected in the request (lines 953–957). -/
def detectedContexts (userRequest : Str) : List ContextCategory :=
  contextFilters.filter fun c =>
    c.userKeywords.any fun kw => strIn kw (lowerStr userRequest)

/-- The text `f"{vibe} {aim} {cuisine} {name}".lower()` of an entry
(line 967). -/
def restaurantContextText (r : Restaurant) : Str :=
  lowerStr (r.vibe ++ ' ' :: r.aim ++ ' ' :: r.cuisine ++ ' ' :: r.rname)

/-- The number of detected contexts whose restaurant keywords occur in the
entry's text (lines 969–976). -/
def contextScore (userRequest : Str) (r : Restaurant) : Nat :=
  (detectedContexts userRequest).countP fun c =>
    c.restaurantKeywords.any fun kw => strIn kw (restaurantContextText r)

/-- Descending order on (score, entry) pairs for the context filter's stable
sort. -/
def natScoreGE (a b : Nat × Restaurant) : Prop := b.1 ≤ a.1

instance : DecidableRel natScoreGE := fun a b => inferInstanceAs (Decidable (b.1 ≤ a.1))

instance : IsTotal (Nat × Restaurant) natScoreGE := ⟨fun a b => Nat.le_total b.1 a.1⟩

instance : IsTrans (Nat × Restaurant) natScoreGE := ⟨fun _ _ _ h h' => Nat.le_trans h' h⟩

/-- Embeds `_filter_by_context(user_request, l)` (lines 921–991): keep the
entries with a positive context score, sorted descending by score; if no
context is detected or no entry scores, return the input unchanged. -/
def filterByContext (userRequest : Str) (l : List Restaurant) : List Restaurant :=
  if (detectedContexts userRequest).isEmpty then l
  else
    let scored := l.filterMap fun r =>
      if 0 < contextScore userRequest r then some (contextScore userRequest r, r) else none
    if scored.isEmpty then l
    else (List.insertionSort natScoreGE scored).map (·.2)

/-! ### `_filter_by_menu` (lines 993–1045) -/

/-- The coarser `food_keywords` table of the menu filter (lines 997–1010);
several keywords carry a leading space. -/
def menuFoodKeywords : List (Str × List Str) :=
  [ (s "піца", [s " піц", s "pizza", s "піца"]),
    (s "паста", [s " паст", s "спагеті", s "pasta"]),
    (s "бургер", [s "бургер", s "burger", s "гамбургер"]),
    (s "суші", [s " суші", s "sushi", s " рол", s "ролл", s "сашімі"]),
    (s "салат", [s " салат", s "salad"]),
    (s "хумус", [s "хумус", s "hummus"]),
    (s "фалафель", [s "фалафель", s "falafel"]),
    (s "шаурма", [s "шаурм", s "shawarma"]),
    (s "стейк", [s "стейк", s "steak", ' ' :: mYaso]),
    (s "риба", [s " риб", s "fish", s "лосось"]),
    (s "курка", [s " курк", s "курчат", s "chicken"]),
    (s "десерт", [s "десерт", s "торт", s "тірамісу", s "морозиво"]) ]

/-- Embeds `_filter_by_menu(user_request, l)` (lines 993–1045): if dish
keywords occur in the request, keep entries whose menu mentions one of the
requested dishes, falling back to the whole list when none does. -/
def filterByMenu (userRequest : Str) (l : List Restaurant) : List Restaurant :=
  let userLower := lowerStr userRequest
  let requested := menuFoodKeywords.filter fun d => d.2.any fun kw => strIn kw userLower
  if requested.isEmpty then l
  else
    let filtered := l.filter fun r =>
      requested.any fun d => d.2.any fun kw => strIn kw (lowerStr r.menu)
    if filtered.isEmpty then l else filtered

/-! ### `_convert_google_drive_url` (lines 86–99) -/

/-- Characters matched by the id group `[a-zA-Z0-9-_]` of the Drive regex. -/
def isDriveIdChar (c : Char) : Bool :=
  (97 ≤ c.toNat && c.toNat ≤ 122) || (65 ≤ c.toNat && c.toNat ≤ 90) ||
  (48 ≤ c.toNat && c.toNat ≤ 57) || c == '-' || c == '_'

/-- `re.search(r'/file/d/([a-zA-Z0-9-_]+)', url)`: the id captured at the
first position where the pattern matches. -/
def driveFileId (url : Str) : Option Str :=
  (List.range url.length).findSome? fun i =>
    if (s "/file/d/").isPrefixOf (url.drop i) then
      let rest := (url.drop (i + 8)).takeWhile isDriveIdChar
      if rest.isEmpty then none else some rest
    else none

/-- Embeds `_convert_google_drive_url(url)`. -/
def convertGoogleDriveURL (url : Str) : Str :=
  if url.isEmpty || !strIn (s "drive.google.com") url then url
  else
    match driveFileId url with
    | some fid => s "https://drive.google.com/uc?export=view&id=" ++ fid
    | none => url

/-! ### The result dicts built by `_parse_dual_recommendation` and
`_fallback_dual_selection` -/

/-- The per-restaurant dict appended to `result["restaurants"]`
(lines 1288–1299, 1325–1336, 1382–1393). -/
structure RestaurantCard where
  cardName : Str
  cardAddress : Str
  cardSocials : Str
  cardVibe : Str
  cardAim : Str
  cardCuisine : Str
  cardMenu : Str
  cardMenuUrl : Str
  cardPhoto : Str
  cardType : Str
deriving DecidableEq

/-- Builds the card dict for one entry: all sheet keys are present in the
model, so the `get` defaults never fire; the photo URL is converted when
non-empty. -/
def card (r : Restaurant) : RestaurantCard :=
  ⟨r.rname, r.address, r.socials, r.vibe, r.aim, r.cuisine, r.menu, r.menuUrl,
   if r.photo.isEmpty then r.photo else convertGoogleDriveURL r.photo,
   typeField r⟩

/-- The successful recommendation payload: cards, priority index,
priority explanation. -/
structure RecResult where
  restaurants : List RestaurantCard
  priorityIndex : Nat
  priorityExplanation : Str
deriving DecidableEq

/-! ### `_parse_dual_recommendation` (lines 1220–1308) -/

/-- Digit test for `re.findall(r'\d+', …)`. -/
def isDigitChar (c : Char) : Bool := 48 ≤ c.toNat && c.toNat ≤ 57

/-- Helper collecting maximal digit runs; second argument is the current run
reversed. -/
def digitRunsAux : Str → Str → List Str
  | [], run => if run.isEmpty then [] else [run.reverse]
  | c :: t, run =>
    if isDigitChar c then digitRunsAux t (c :: run)
    else if run.isEmpty then digitRunsAux t []
    else run.reverse :: digitRunsAux t []

/-- `re.findall(r'\d+', t)`: the maximal runs of digits in `t`. -/
def digitRuns (t : Str) : List Str := digitRunsAux t []

/-- Value of a digit run (`int(num)`). -/
def digitsToNat (t : Str) : Nat := t.foldl (fun n c => 10 * n + (c.toNat - 48)) 0

/-- Condition of line 1229: the stripped line lower-cased starts with
`варіант` and contains `[`. -/
def varCond (l : Str) : Bool :=
  (s "варіант").isPrefixOf (lowerStr l) && l.contains '['

/-- Condition of line 1231: the stripped line lower-cased starts with
`пріоритет` and contains `-`. -/
def priCond (l : Str) : Bool :=
  (s "пріоритет").isPrefixOf (lowerStr l) && l.contains '-'

/-- The scan of lines 1223–1232: the last stripped line satisfying each
condition (later assignments overwrite earlier ones); empty when absent. -/
def scanLines (resp : Str) : Str × Str :=
  ((splitNL (pyStrip resp)).map pyStrip).foldl
    (fun acc l =>
      if varCond l then (l, acc.2)
      else if priCond l then (acc.1, l)
      else acc)
    ([], [])

/-- The integers extracted from the variants line (line 1238). -/
def extractedNumbers (resp : Str) : List Nat :=
  (digitRuns (scanLines resp).1).map digitsToNat

/-- The first (at most) two numbers converted to 0-based indices and kept
when in range (lines 1242–1245); `int(num) - 1` can be `-1`, so indices are
integers. -/
def validIndicesOf (resp : Str) (cands : List Restaurant) : List Int :=
  (((extractedNumbers resp).take 2).map fun n => (n : Int) - 1).filter
    fun i => decide (0 ≤ i) && decide (i < (cands.length : Int))

/-- The priority number parsed from the priority line (lines 1257–1261):
the first digit run before the first `-`. -/
def priorityNumOf (resp : Str) : Option Nat :=
  let pline := (scanLines resp).2
  if !pline.isEmpty && pline.contains '-' then
    ((digitRuns (pline.takeWhile (· != '-'))).head?).map digitsToNat
  else none

/-- The default priority explanation (line 1255). -/
def defaultExplanation : Str := s "найкращий варіант за всіма критеріями"

/-- The priority explanation (lines 1263–1266): the stripped text after the
first `-`, or the default when empty or absent. -/
def priorityExplanationOf (resp : Str) : Str :=
  let pline := (scanLines resp).2
  if !pline.isEmpty && pline.contains '-' then
    let e := pyStrip ((pline.dropWhile (· != '-')).drop 1)
    if e.isEmpty then defaultExplanation else e
  else defaultExplanation

/-- Embeds `_parse_dual_recommendation(openai_response, filtered_restaurants)`
(lines 1220–1308): `none` models the `return None` paths. -/
def parseDualRecommendation (resp : Str) (cands : List Restaurant) : Option RecResult :=
  let numbers := extractedNumbers resp
  if numbers.length < 1 then none
  else
    let valid := validIndicesOf resp cands
    if valid.isEmpty then none
    else
      let restaurants := valid.map fun i => cands.getD i.toNat emptyRestaurant
      let pIdx : Nat :=
        match priorityNumOf resp with
        | some p =>
          if decide (p ≠ 0) && valid.contains ((p : Int) - 1) then
            valid.indexOf ((p : Int) - 1)
          else 0
        | none => 0
      some ⟨restaurants.map card, pIdx, priorityExplanationOf resp⟩

/-! ### `_fallback_dual_selection` (lines 1310–1396) -/

/-- The `keywords_map` of the fallback selector (lines 1345–1350):
category, user keywords, restaurant keywords. -/
def fallbackKeywordsMap : List (Str × List Str × List Str) :=
  [ (s "romantic", ([s "романт", s "побачен", s "інтимн"], [s "інтимн", s "романт", s "пар"])),
    (s "family", ([s "сім", s "діт", s "родин"], [s "сімейн", s "діт", s "родин"])),
    (s "business", ([s "діл", s "зустріч", s "бізнес"], [s "діл", s "бізнес"])),
    (s "friends", ([s "друз", s "компан", s "весел"], [s "компан", s "друз", s "молодіжн"])) ]

/-- The deterministic part of the fallback score (lines 1352–1361): 3 points
per category matched by both the request and the entry's `vibe`+`aim` text. -/
def fallbackBaseScore (userRequest : Str) (r : Restaurant) : Rat :=
  let userLower := lowerStr userRequest
  let rtext := lowerStr (r.vibe ++ ' ' :: r.aim)
  3 * ((fallbackKeywordsMap.countP fun c =>
    (c.2.1.any fun kw => strIn kw userLower) &&
    (c.2.2.any fun kw => strIn kw rtext)) : Rat)

/-- Descending order on (score, entry) pairs for the fallback's stable sort. -/
def ratScoreGE (a b : Rat × Restaurant) : Prop := b.1 ≤ a.1

instance : DecidableRel ratScoreGE := fun a b => inferInstanceAs (Decidable (b.1 ≤ a.1))

instance : IsTotal (Rat × Restaurant) ratScoreGE := ⟨fun a b => le_total b.1 a.1⟩

instance : IsTrans (Rat × Restaurant) ratScoreGE := ⟨fun _ _ _ h h' => le_trans h' h⟩

/-- Embeds `_fallback_dual_selection(user_request, restaurant_list)`
(lines 1310–1396).  `rand i` models the value of the `i`-th call of
`random.uniform(0, 1)` (one per entry, in list order). -/
def fallbackDualSelection (rand : Nat → Rat) (userRequest : Str) (l : List Restaurant) :
    Option RecResult :=
  match l with
  | [] => none
  | [single] =>
    some ⟨[card single], 0, s "єдиний доступний варіант після фільтрації"⟩
  | _ :: _ :: _ =>
    let scored := l.enum.map fun p => (fallbackBaseScore userRequest p.2 + rand p.1, p.2)
    let sorted := List.insertionSort ratScoreGE scored
    some ⟨((sorted.take 2).map (·.2)).map card, 0,
          s "найвищий рейтинг за алгоритмом відповідності"⟩

/-- The oracle-response handling of `get_recommendation` (lines 1205–1211):
a parsed result is returned as is, an unparseable response routes to the
local fallback selector. -/
def assembleFromOracle (rand : Nat → Rat) (userRequest : Str)
    (finalFiltered : List Restaurant) (oracleText : Str) : Option RecResult :=
  match parseDualRecommendation oracleText finalFiltered with
  | some r => some r
  | none => fallbackDualSelection rand userRequest finalFiltered

/-! ### The deterministic pre-oracle pipeline of `get_recommendation`
(lines 1047–1199) -/

/-- Outcome of the pipeline up to the oracle call. -/
inductive PreOracle where
  | noData
  | dishNotFound (missingDishes : Str) (message : Str)
  | proceed (finalFiltered : List Restaurant)
deriving DecidableEq

/-- Whether a pre-oracle outcome is the dish-not-found variant. -/
def PreOracle.isDishNotFound : PreOracle → Bool
  | .dishNotFound _ _ => true
  | _ => false

/-- Python `", ".join(dishes)`. -/
def joinCommaSpace : List Str → Str
  | [] => []
  | [x] => x
  | x :: y :: t => x ++ s ", " ++ joinCommaSpace (y :: t)

/-- The user-facing dish-not-found message (lines 1090, 1125). -/
def dnfMessage (missing : Str) : Str :=
  s "На жаль, " ++ missing ++ s " ще немає в нашому переліку. Спробуй іншу страву!"

/-- The dish hard-filter of lines 1095–1118: entries whose menu matches a
keyword of some requested dish (word-boundary regex under the default
config). -/
def dishFilterCandidates (dishes : List Str) (l : List Restaurant) : List Restaurant :=
  l.filter fun r =>
    dishes.any fun dish => (getDishKeywords dish).any fun kw =>
      if cfgRegexBoundaries then reSearchWB (lowerStr kw) (lowerStr r.menu)
      else strIn (lowerStr kw) (lowerStr r.menu)

/-- The three-stage filter chain of lines 1131–1143. -/
def pipelineFilters (userRequest : Str) (l : List Restaurant) : List Restaurant :=
  filterByMenu userRequest (filterByContext userRequest
    (if cfgEnabled then enhancedFilterByEstablishmentType userRequest l
     else filterByEstablishmentType userRequest l))

/-- The deterministic pre-oracle part of `get_recommendation(user_request)`:
`data` is `self.restaurants_data` and `shuffled` the shuffled copy of it
(`random.shuffle`); the comprehensive analysis and the dish gate read `data`,
the dish filter and the default path read `shuffled` (lines 1047–1143). -/
def getRecommendationPre (data shuffled : List Restaurant) (userRequest : Str) : PreOracle :=
  if data.isEmpty then .noData
  else if (comprehensiveContentAnalysis userRequest data).1 then
    .proceed (pipelineFilters userRequest
      ((comprehensiveContentAnalysis userRequest data).2.1.map (·.restaurant)))
  else if (checkDishAvailability userRequest data).2.isEmpty then
    .proceed (pipelineFilters userRequest shuffled)
  else if !(checkDishAvailability userRequest data).1 then
    .dishNotFound (joinCommaSpace (checkDishAvailability userRequest data).2)
      (dnfMessage (joinCommaSpace (checkDishAvailability userRequest data).2))
  else if (dishFilterCandidates (checkDishAvailability userRequest data).2 shuffled).isEmpty then
    .dishNotFound (joinCommaSpace (checkDishAvailability userRequest data).2)
      (dnfMessage (joinCommaSpace (checkDishAvailability userRequest data).2))
  else
    .proceed (pipelineFilters userRequest
      (dishFilterCandidates (checkDishAvailability userRequest data).2 shuffled))

/-! ### Strategy selection -/

/-- The two filtering strategies of the A/B design. -/
inductive Strategy where
  | NEW
  | OLD
deriving DecidableEq

/-- The strategy dispatch of `get_recommendation` (lines 1134–1137) viewed as
a function of the requesting user: the enhanced (NEW) pipeline is taken
exactly when `ENHANCED_SEARCH_CONFIG['enabled']` is set; the user identifier
plays no role anywhere in the choice. -/
def selectStrategy (_userId : Nat) : Strategy :=
  if cfgEnabled then .NEW else .OLD

/-- Modelled from the spec: `selectStrategy` is claimed to hash the user
identifier and compare the hash modulo 100 with the configured split ratio
(default 50) to choose NEW vs OLD; no such code exists in the repository, so
the claimed selector is modelled here as a family over the unspecified hash
function `h`. -/
def specSelectStrategy (h : Nat → Nat) (ratio : Nat) (u : Nat) : Strategy :=
  if h u % 100 < ratio then .NEW else .OLD

/-! ### Specification-side scoring formulas (for comparison with the
implementation) -/

/-- The additive score an entry actually receives from the criteria table
(in half-point units): the sum of the weights of the criteria matched by
both the request and the entry. -/
def specEntryScore (userRequest : Str) (r : Restaurant) : Nat :=
  (searchCriteria.map fun c =>
    if userHasCriterion (lowerStr userRequest) c && restaurantHasCriterion r c then
      c.weight
    else 0).sum

/-- The top entry score over a catalog (half-point units). -/
def specTopScore (userRequest : Str) (data : List Restaurant) : Nat :=
  (data.map (specEntryScore userRequest)).foldr max 0

/-- The number of distinct designated columns of a criterion matched by an
entry. -/
def matchingColumnsCount (r : Restaurant) (c : Criterion) : Nat :=
  (c.columns.filter fun col =>
    c.keywords.any fun kw => strIn kw (lowerStr (getColumn r col))).length

/-- The scoring formula asserted by the specification:
`weight + 0.2 × (number of distinct matching columns)` per matched
criterion, stored in tenth-point units (ten times the float value, so the
implementation's half-point score `v` agrees with this formula exactly when
`5·v` equals it): weight contributes `5 · weight` and each matching column
contributes 2. -/
def claimEntryScore (userRequest : Str) (r : Restaurant) : Nat :=
  (searchCriteria.map fun c =>
    if userHasCriterion (lowerStr userRequest) c && restaurantHasCriterion r c then
      5 * c.weight + 2 * matchingColumnsCount r c
    else 0).sum

/-! ### Concrete catalog entries used in witnesses and counterexamples -/

/-- An entry whose cuisine and menu both say `піца`. -/
def rPizzaEx : Restaurant := ⟨s "a", [], [], [], [], s "піца", s "піца", [], [], [], none⟩

/-- An entry with a romantic vibe. -/
def rRomanticEx : Restaurant := ⟨s "a", [], [], s "романтичний", [], [], [], [], [], [], none⟩

/-- An entry with a loud vibe (no context keywords). -/
def rLoudEx : Restaurant := ⟨s "b", [], [], s "гучний", [], [], [], [], [], [], none⟩

/-- An entry whose *name* mentions sushi while its menu is empty. -/
def rSushiNameEx : Restaurant :=
  ⟨s "Суші Майстер", [], [], [], [], [], [], [], [], s "ресторан", none⟩

/-- An entry that mentions no sushi anywhere. -/
def rPlainEx : Restaurant := ⟨s "Нема", [], [], [], [], [], s "борщ", [], [], [], none⟩

/-- An entry of type `ресторан`. -/
def rRestoranEx : Restaurant := ⟨s "R", [], [], [], [], [], [], [], [], s "ресторан", none⟩

/-- An entry of type `бар`. -/
def rBarEx : Restaurant := ⟨s "X", [], [], [], [], [], [], [], [], s "бар", none⟩

/-- Neutral demo entries for the parser and fallback witnesses. -/
def rDemo1 : Restaurant := ⟨s "один", [], [], [], [], [], [], [], [], [], none⟩

/-- Second neutral demo entry. -/
def rDemo2 : Restaurant := ⟨s "два", [], [], [], [], [], [], [], [], [], none⟩

/-- Third neutral demo entry. -/
def rDemo3 : Restaurant := ⟨s "три", [], [], [], [], [], [], [], [], [], none⟩

/-! ## Helper lemmas -/

theorem isPrefixOf_rfl : ∀ l : Str, l.isPrefixOf l = true
  | [] => rfl
  | c :: t => by simp [List.isPrefixOf, isPrefixOf_rfl t]

theorem strIn_rfl : ∀ l : Str, strIn l l = true
  | [] => rfl
  | c :: t => by simp [strIn, isPrefixOf_rfl]

theorem strIn_of_prefix_drop {kw : Str} :
    ∀ (t : Str) (i : Nat), kw.isPrefixOf (t.drop i) = true → strIn kw t = true := by
  intro t
  induction t with
  | nil =>
    intro i h
    have hk : kw = [] := by simpa using h
    subst hk; rfl
  | cons c t ih =>
    intro i h
    cases i with
    | zero =>
      simp only [strIn, Bool.or_eq_true]
      exact Or.inl (by simpa using h)
    | succ j =>
      simp only [strIn, Bool.or_eq_true]
      exact Or.inr (ih j (by simpa using h))

theorem reSearchWB_imp_strIn {kw t : Str} (h : reSearchWB kw t = true) :
    strIn kw t = true := by
  unfold reSearchWB at h
  obtain ⟨i, -, hp⟩ := List.any_eq_true.mp h
  exact strIn_of_prefix_drop t i (by
    have := hp
    simp only [Bool.and_eq_true] at this
    exact this.1.1)

theorem reSearchWB_eq_false {kw t : Str} (h : strIn kw t = false) :
    reSearchWB kw t = false := by
  cases hw : reSearchWB kw t with
  | false => rfl
  | true => rw [reSearchWB_imp_strIn hw] at h; cases h

theorem subperm_map {α β : Type _} (f : α → β) {l₁ l₂ : List α}
    (h : l₁.Subperm l₂) : (l₁.map f).Subperm (l₂.map f) := by
  obtain ⟨u, hperm, hsub⟩ := h
  exact ⟨u.map f, hperm.map f, hsub.map f⟩

theorem score_foldl_aux (u : Str) (r : Restaurant) :
    ∀ (L : List Criterion) (acc : Nat × List Str),
      (L.foldl
        (fun acc c =>
          if userHasCriterion u c && restaurantHasCriterion r c then
            (acc.1 + c.weight, acc.2 ++ [c.cname])
          else acc)
        acc).1 =
      acc.1 + (L.map fun c =>
        if userHasCriterion u c && restaurantHasCriterion r c then c.weight else 0).sum := by
  intro L
  induction L with
  | nil => intro acc; simp
  | cons c L ih =>
    intro acc
    by_cases h : (userHasCriterion u c && restaurantHasCriterion r c) = true
    · rw [List.foldl_cons, List.map_cons, List.sum_cons, if_pos h, if_pos h, ih]; ring
    · rw [List.foldl_cons, List.map_cons, List.sum_cons, if_neg h, if_neg h, ih]; ring

theorem entryScore_fst (req : Str) (r : Restaurant) :
    (entryScoreImpl (lowerStr req) r).1 = specEntryScore req r := by
  unfold entryScoreImpl specEntryScore
  simpa using score_foldl_aux (lowerStr req) r searchCriteria (0, [])

theorem le_foldr_max_self (a : Nat) : ∀ l : List Nat, a ≤ l.foldr max a
  | [] => le_refl a
  | x :: t => le_trans (le_foldr_max_self a t) (le_max_right x _)

theorem le_foldr_max_of_mem {x a : Nat} : ∀ {l : List Nat}, x ∈ l → x ≤ l.foldr max a := by
  intro l
  induction l with
  | nil => intro h; cases h
  | cons y t ih =>
    intro h
    rcases List.mem_cons.mp h with rfl | h
    · exact le_max_left _ _
    · exact le_trans (ih h) (le_max_right _ _)

theorem foldr_max_mem_or (a : Nat) : ∀ l : List Nat, l.foldr max a = a ∨ l.foldr max a ∈ l := by
  intro l
  induction l with
  | nil => exact Or.inl rfl
  | cons y t ih =>
    rcases max_cases y (t.foldr max a) with ⟨he, -⟩ | ⟨he, -⟩
    · exact Or.inr (by rw [List.foldr_cons, he]; exact List.mem_cons_self y t)
    · rcases ih with h | h
      · exact Or.inl (by rw [List.foldr_cons, he, h])
      · exact Or.inr (by rw [List.foldr_cons, he]; exact List.mem_cons_of_mem y h)

theorem mem_scoredOf {req : Str} {data : List Restaurant} {x : ScoredRestaurant} :
    x ∈ scoredOf req data ↔
      ∃ r ∈ data, 0 < specEntryScore req r ∧
        x = ⟨r, specEntryScore req r, (entryScoreImpl (lowerStr req) r).2⟩ := by
  unfold scoredOf
  rw [List.mem_filterMap]
  constructor
  · rintro ⟨r, hr, hf⟩
    by_cases h : 0 < (entryScoreImpl (lowerStr req) r).1
    · rw [if_pos h] at hf
      refine ⟨r, hr, by rwa [entryScore_fst] at h, ?_⟩
      cases hf
      simp [entryScore_fst]
    · rw [if_neg h] at hf; cases hf
  · rintro ⟨r, hr, hpos, rfl⟩
    refine ⟨r, hr, ?_⟩
    rw [if_pos (by rwa [entryScore_fst])]
    simp [entryScore_fst]

theorem scoredOf_eq_nil_iff {req : Str} {data : List Restaurant} :
    scoredOf req data = [] ↔ ∀ r ∈ data, ¬ 0 < specEntryScore req r := by
  unfold scoredOf
  rw [List.filterMap_eq_nil_iff]
  constructor
  · intro h r hr hpos
    have := h r hr
    rw [if_pos (by rwa [entryScore_fst])] at this
    cases this
  · intro h r hr
    rw [if_neg (by rw [entryScore_fst]; exact h r hr)]

theorem scoredOf_cons (req : Str) (r : Restaurant) (t : List Restaurant) :
    scoredOf req (r :: t) =
      if 0 < (entryScoreImpl (lowerStr req) r).1 then
        (⟨r, (entryScoreImpl (lowerStr req) r).1, (entryScoreImpl (lowerStr req) r).2⟩ :
          ScoredRestaurant) :: scoredOf req t
      else scoredOf req t := by
  by_cases h : 0 < (entryScoreImpl (lowerStr req) r).1
  · rw [if_pos h]
    show List.filterMap _ (r :: t) = _
    rw [List.filterMap_cons, if_pos h]
    rfl
  · rw [if_neg h]
    show List.filterMap _ (r :: t) = _
    rw [List.filterMap_cons, if_neg h]
    rfl

theorem scored_filter_map_eq (req : Str) (p : Nat → Bool) :
    ∀ data : List Restaurant,
      (((scoredOf req data).filter fun x => p x.score).map (·.restaurant)) =
        data.filter fun r =>
          decide (0 < specEntryScore req r) && p (specEntryScore req r) := by
  intro data
  induction data with
  | nil => rfl
  | cons r t ih =>
    rw [scoredOf_cons]
    by_cases h1 : 0 < specEntryScore req r
    · rw [if_pos (show 0 < (entryScoreImpl (lowerStr req) r).1 by rwa [entryScore_fst]),
        List.filter_cons, List.filter_cons]
      cases h2 : p (specEntryScore req r) with
      | true =>
        simp only [entryScore_fst, h2, decide_eq_true h1, Bool.true_and, if_true,
          List.map_cons]
        exact congrArg (_ :: ·) ih
      | false =>
        simp only [entryScore_fst, h2, decide_eq_true h1, Bool.true_and, if_false]
        exact ih
    · rw [if_neg (show ¬ 0 < (entryScoreImpl (lowerStr req) r).1 by rwa [entryScore_fst]),
        List.filter_cons]
      simp only [decide_eq_false h1, Bool.false_and, if_false]
      exact ih

theorem ctx_scored_map_snd (req : Str) :
    ∀ l : List Restaurant,
      ((l.filterMap fun r =>
          if 0 < contextScore req r then some (contextScore req r, r) else none).map (·.2)) =
        l.filter fun r => decide (0 < contextScore req r) := by
  intro l
  induction l with
  | nil => rfl
  | cons r t ih =>
    rw [List.filterMap_cons, List.filter_cons]
    by_cases h : 0 < contextScore req r
    · simp only [h, if_pos, decide_eq_true h, List.map_cons]
      exact congrArg (_ :: ·) ih
    · simp only [h, if_neg, decide_eq_false h, if_false]
      exact ih

theorem mem_ctx_scored {req : Str} {l : List Restaurant} {p : Nat × Restaurant} :
    p ∈ (l.filterMap fun r =>
        if 0 < contextScore req r then some (contextScore req r, r) else none) ↔
      p.2 ∈ l ∧ p.1 = contextScore req p.2 ∧ 0 < p.1 := by
  rw [List.mem_filterMap]
  constructor
  · rintro ⟨r, hr, hf⟩
    by_cases h : 0 < contextScore req r
    · rw [if_pos h] at hf
      cases hf
      exact ⟨hr, rfl, h⟩
    · rw [if_neg h] at hf; cases hf
  · rintro ⟨hmem, heq, hpos⟩
    refine ⟨p.2, hmem, ?_⟩
    rw [if_pos (heq ▸ hpos), ← heq]

theorem filterByEstablishmentType_subset {req : Str} {l : List Restaurant} :
    ∀ x ∈ filterByEstablishmentType req l, x ∈ l := by
  intro x hx
  simp only [filterByEstablishmentType] at hx
  split at hx
  · exact hx
  · split at hx
    · exact hx
    · exact (List.mem_filter.mp hx).1

theorem filterByEstablishmentType_ne_nil {req : Str} {l : List Restaurant}
    (h : l ≠ []) : filterByEstablishmentType req l ≠ [] := by
  simp only [filterByEstablishmentType]
  split
  · exact h
  · split
    · exact h
    · next hne => exact fun hc => hne (by rw [hc]; rfl)

/-! ## Claim theorems -/

/-- C4 (code bug): `_check_synonyms` is annotated to return
`(matched, confidence, words)` and its body computes the synonym matches,
but it has no return statement, so it always returns `None`; the caller's
tuple unpacking raises and the `except` swallows the error, so the synonym
branch never contributes.  At the failing input — text `кафе`, keyword
`кава`, which share the synonym group of `кав'ярня` — the body computes the
match `(["кафе"], 0.8)` (confidence stored ×1000 as 800), yet the matcher
reports no match at all instead of the claimed synonym match with confidence
`0.7 × 0.8`. -/
theorem claim_C4_code_bug :
    (∀ t k, checkSynonyms t k = none) ∧
    checkSynonymsLocals (s "кафе") (s "кава") = ([s "кафе"], 800) ∧
    enhancedKeywordMatch (s "кафе") [s "кава"] = (false, 0, []) :=
  ⟨fun _ _ => rfl, by decide, by decide⟩

/-- C5 (amended): strategy selection is deterministic but ignores the user
identifier entirely: the pipeline dispatch depends only on the global
configuration flag `ENHANCED_SEARCH_CONFIG['enabled']`, so every user gets
the same strategy (NEW, as the flag is set); no hashing of the user
identifier is involved. -/
theorem claim_C5_amended (u v : Nat) :
    selectStrategy u = selectStrategy v ∧ selectStrategy u = Strategy.NEW :=
  ⟨rfl, rfl⟩

/-- C5 (counterexample): the claimed mechanism — hash the user identifier and
compare the hash modulo 100 with the default 50 % split ratio — contradicts
the code for every hash function that attains each residue modulo 100 (the
minimal reading of "uniformly distributed"): such a selector assigns OLD to
some user, while the code assigns NEW to all users. -/
theorem claim_C5_counterexample :
    ¬ ∃ h : Nat → Nat, (∀ r, r < 100 → ∃ u, h u % 100 = r) ∧
      (∀ u, selectStrategy u = specSelectStrategy h 50 u) := by
  rintro ⟨h, hsurj, heq⟩
  obtain ⟨u, hu⟩ := hsurj 50 (by norm_num)
  have hc := heq u
  rw [show selectStrategy u = Strategy.NEW from rfl] at hc
  unfold specSelectStrategy at hc
  rw [hu, if_neg (by norm_num)] at hc
  cases hc

/-- C7 (confirmed): whenever some token of the text is, or fuzzily resembles
(ratio > 85), a keyword, and a negation word stands within five tokens of
it, the enhanced matcher returns `matched = false` with confidence 0 and no
evidence — negation suppresses the whole match. -/
theorem claim_C7_negation (userText : Str) (keywords : List Str) (p n : Nat)
    (hp : p < (pySplit (lowerStr userText)).length)
    (hn : n < (pySplit (lowerStr userText)).length)
    (hnp : n ≠ p)
    (h1 : p ≤ n + 5) (h2 : n ≤ p + 5)
    (hneg : (pySplit (lowerStr userText)).getD n [] ∈ negationWords)
    (hkw : ∃ kw ∈ keywords,
        lowerStr kw = (pySplit (lowerStr userText)).getD p [] ∨
        85 < fuzzScore (lowerStr kw) ((pySplit (lowerStr userText)).getD p [])) :
    enhancedKeywordMatch userText keywords = (false, 0, []) := by
  have hposmem : p ∈ keywordPositions (pySplit (lowerStr userText)) keywords := by
    unfold keywordPositions
    rw [List.mem_filter]
    refine ⟨List.mem_range.mpr hp, ?_⟩
    rw [List.any_eq_true]
    obtain ⟨kw, hkwmem, hcase⟩ := hkw
    refine ⟨kw, hkwmem, ?_⟩
    rw [Bool.or_eq_true]
    rcases hcase with he | hf
    · exact Or.inl (he ▸ strIn_rfl _)
    · refine Or.inr ?_
      rw [show fuzzyAvailable = true from rfl, Bool.true_and]
      exact decide_eq_true hf
  have hnegTrue : hasNegationNearKeywords userText keywords 5 = true := by
    unfold hasNegationNearKeywords
    rw [List.any_eq_true]
    refine ⟨p, hposmem, ?_⟩
    simp only
    rw [List.any_eq_true]
    refine ⟨n, ?_, ?_⟩
    · rw [List.mem_range']
      refine ⟨n - (p - 5), ?_, ?_⟩ <;> omega
    · rw [Bool.and_eq_true]
      refine ⟨decide_eq_true hnp, ?_⟩
      rw [List.any_eq_true]
      exact ⟨(pySplit (lowerStr userText)).getD n [], hneg,
        by rw [Bool.or_eq_true]; exact Or.inl (strIn_rfl _)⟩
  unfold enhancedKeywordMatch
  rw [show cfgEnabled = true from rfl]
  rw [show cfgNegationDetection = true from rfl, hnegTrue]
  rfl

/-- C7 (witness): `не хочу піцу` against the keyword list `[піцу]` is
suppressed: the token `піцу` matches the keyword exactly and the negation
word `не` stands two tokens away. -/
theorem claim_C7_witness :
    enhancedKeywordMatch (s "не хочу піцу") [s "піцу"] = (false, 0, []) :=
  claim_C7_negation (s "не хочу піцу") [s "піцу"] 2 0 (by decide) (by decide)
    (by decide) (by decide) (by decide) (by decide)
    ⟨s "піцу", by decide, Or.inl (by decide)⟩

/-- C10 (confirmed): the fallback selector is total on nonempty input — a
one-element list yields exactly that entry as the sole candidate, a list of
length ≥ 2 yields exactly two candidates drawn from two distinct positions
of the input (`List.Subperm [a, b] l`), and the result always carries a
nonempty candidate list with a valid priority index — for every value of the
random perturbation. -/
theorem claim_C10_fallback_total (rand : Nat → Rat) (req : Str) (l : List Restaurant) :
    (∀ x, l = [x] → fallbackDualSelection rand req l =
      some ⟨[card x], 0, s "єдиний доступний варіант після фільтрації"⟩) ∧
    (2 ≤ l.length → ∃ a b res, fallbackDualSelection rand req l = some res ∧
      res.restaurants = [card a, card b] ∧ List.Subperm [a, b] l ∧ res.priorityIndex = 0) ∧
    (l ≠ [] → ∃ res, fallbackDualSelection rand req l = some res ∧
      res.restaurants ≠ [] ∧ res.priorityIndex < res.restaurants.length) := by
  have hgen : 2 ≤ l.length → ∃ a b res, fallbackDualSelection rand req l = some res ∧
      res.restaurants = [card a, card b] ∧ List.Subperm [a, b] l ∧
      res.priorityIndex = 0 := by
    intro hlen
    rcases l with _ | ⟨a, _ | ⟨b, t⟩⟩
    · simp at hlen
    · simp at hlen
    · set scored := ((a :: b :: t).enum.map
        fun p => (fallbackBaseScore req p.2 + rand p.1, p.2)) with hscored
      have hslen : (List.insertionSort ratScoreGE scored).length = scored.length :=
        (List.perm_insertionSort ratScoreGE scored).length_eq
      have hscoredlen : scored.length = t.length + 2 := by
        rw [hscored, List.length_map, List.enum_length]; simp
      have hmapsnd : scored.map (·.2) = a :: b :: t := by
        rw [hscored, List.map_map]
        exact List.enum_map_snd (a :: b :: t)
      cases hs : List.insertionSort ratScoreGE scored with
      | nil => rw [hs] at hslen; simp at hslen; omega
      | cons x ys =>
        cases ys with
        | nil => rw [hs] at hslen; simp at hslen; omega
        | cons y rest =>
          have heval : fallbackDualSelection rand req (a :: b :: t) =
              some ⟨(((List.insertionSort ratScoreGE scored).take 2).map (·.2)).map card,
                    0, s "найвищий рейтинг за алгоритмом відповідності"⟩ := rfl
          rw [hs] at heval
          refine ⟨x.2, y.2, _, heval, rfl, ?_, rfl⟩
          have hsub : [x, y].Subperm scored := by
            have h1 : List.Sublist [x, y] (x :: y :: rest) := by
              have h := List.take_sublist 2 (x :: y :: rest)
              simp only [List.take_cons, List.take_nil, List.take] at h
              exact h
            exact (h1.subperm).trans ((hs ▸ List.perm_insertionSort ratScoreGE scored).subperm)
          have := subperm_map (·.2) hsub
          rwa [hmapsnd] at this
  refine ⟨?_, hgen, ?_⟩
  · rintro x rfl; rfl
  · intro hne
    rcases l with _ | ⟨x, _ | ⟨y, t⟩⟩
    · exact absurd rfl hne
    · exact ⟨_, rfl, by simp, by simp⟩
    · obtain ⟨a', b', res, h1, h2, h3, h4⟩ := hgen (by simp)
      refine ⟨res, h1, ?_, ?_⟩
      · rw [h2]; simp
      · rw [h4, h2]; simp

/-- C10 (witness): on the two-element list `[rDemo1, rDemo2]` (with the
perturbation fixed to 0) the fallback returns a result with a nonempty
candidate list and a valid priority index. -/
theorem claim_C10_witness :
    ∃ res, fallbackDualSelection (fun _ => 0) (s "щось") [rDemo1, rDemo2] = some res ∧
      res.restaurants ≠ [] ∧ res.priorityIndex < res.restaurants.length :=
  (claim_C10_fallback_total (fun _ => 0) (s "щось") [rDemo1, rDemo2]).2.2 (by simp)

/-- C8 (amended): the oracle-response parser returns the sentinel `None`
exactly when no valid index survives — no digits in the variants line, or
every extracted index out of range — and `None` routes the assembler to the
local fallback selector.  (A missing priority line is *not* a parse failure;
see the counterexample.) -/
theorem claim_C8_amended (resp : Str) (cands : List Restaurant)
    (rand : Nat → Rat) (req : Str) :
    (parseDualRecommendation resp cands = none ↔ validIndicesOf resp cands = []) ∧
    (parseDualRecommendation resp cands = none →
      assembleFromOracle rand req cands resp = fallbackDualSelection rand req cands) := by
  have hiff : parseDualRecommendation resp cands = none ↔
      validIndicesOf resp cands = [] := by
    simp only [parseDualRecommendation]
    by_cases h1 : (extractedNumbers resp).length < 1
    · rw [if_pos h1]
      have hnil : extractedNumbers resp = [] := List.length_eq_zero.mp (by omega)
      constructor
      · intro _
        unfold validIndicesOf
        rw [hnil]
        rfl
      · intro _; rfl
    · rw [if_neg h1]
      by_cases h2 : (validIndicesOf resp cands).isEmpty
      · rw [if_pos h2]
        exact ⟨fun _ => List.isEmpty_iff.mp h2, fun _ => rfl⟩
      · rw [if_neg h2]
        constructor
        · intro hc; cases hc
        · intro hnil; exact absurd (by rw [hnil]; rfl) h2
  refine ⟨hiff, ?_⟩
  intro hnone
  unfold assembleFromOracle
  rw [hnone]

/-- C8 (witness): a response with no digits parses to `None` and the
assembler falls back to the local selector. -/
theorem claim_C8_witness :
    parseDualRecommendation (s "Привіт") [rDemo1] = none ∧
    assembleFromOracle (fun _ => 0) (s "щось") [rDemo1] (s "Привіт") =
      fallbackDualSelection (fun _ => 0) (s "щось") [rDemo1] := by
  have h := claim_C8_amended (s "Привіт") [rDemo1] (fun _ => 0) (s "щось")
  have hnone := h.1.mpr (by decide)
  exact ⟨hnone, h.2 hnone⟩

/-- C8 (counterexample): a well-formed variants line with *no priority line
at all* is not treated as malformed: the parser returns a successful result
(priority defaulting to the first candidate and the default explanation),
not the `None` sentinel the claim requires for a missing priority line. -/
theorem claim_C8_counterexample :
    parseDualRecommendation (s "Варіанти: [1]") [rDemo1] =
      some ⟨[card rDemo1], 0, defaultExplanation⟩ ∧
    parseDualRecommendation (s "Варіанти: [1]") [rDemo1] ≠ none := by
  refine ⟨by decide, ?_⟩
  intro h
  rw [(by decide : parseDualRecommendation (s "Варіанти: [1]") [rDemo1] =
      some ⟨[card rDemo1], 0, defaultExplanation⟩)] at h
  cases h

/-- C9 (confirmed): parsing `Варіанти: [1, 3]\nПріоритет: 1 - ...` against
any 3-candidate list yields exactly the cards of the candidates at positions
0 and 2 with priority index 0; and whenever the extracted priority number is
absent, zero, or not among the valid selected indices, the parser defaults
the priority to the first selected candidate. -/
theorem claim_C9_parse_wellformed :
    (∀ e0 e1 e2 : Restaurant,
      parseDualRecommendation (s "Варіанти: [1, 3]\nПріоритет: 1 - ...") [e0, e1, e2] =
        some ⟨[card e0, card e2], 0, s "..."⟩) ∧
    (∀ resp cands, validIndicesOf resp cands ≠ [] →
      (∀ q, priorityNumOf resp = some q →
        q = 0 ∨ ((q : Int) - 1) ∉ validIndicesOf resp cands) →
      ∃ res, parseDualRecommendation resp cands = some res ∧ res.priorityIndex = 0) := by
  constructor
  · intro e0 e1 e2
    rfl
  · intro resp cands hvalid hpri
    simp only [parseDualRecommendation]
    have h1 : ¬ (extractedNumbers resp).length < 1 := by
      intro h
      have hnil : extractedNumbers resp = [] := List.length_eq_zero.mp (by omega)
      apply hvalid
      unfold validIndicesOf
      rw [hnil]
      rfl
    rw [if_neg h1, if_neg (fun hc => hvalid (List.isEmpty_iff.mp hc))]
    refine ⟨_, rfl, ?_⟩
    cases hq : priorityNumOf resp with
    | none => rfl
    | some q =>
      rcases hpri q hq with rfl | hnot
      · simp
      · have hc : (validIndicesOf resp cands).contains ((q : Int) - 1) = false := by
          cases hcon : (validIndicesOf resp cands).contains ((q : Int) - 1) with
          | false => rfl
          | true => exact absurd (List.elem_iff.mp hcon) hnot
        simp only [hc, Bool.and_false, Bool.false_eq_true, if_false]

/-- C9 (witness): both parts at concrete inputs — the canonical response
against three concrete entries, and a response whose priority number 7 is
not among the selected indices, which defaults to priority 0. -/
theorem claim_C9_witness :
    parseDualRecommendation (s "Варіанти: [1, 3]\nПріоритет: 1 - ...")
        [rDemo1, rDemo2, rDemo3] =
      some ⟨[card rDemo1, card rDemo3], 0, s "..."⟩ ∧
    ∃ res, parseDualRecommendation (s "Варіанти: [1, 2]\nПріоритет: 7 - бо")
        [rDemo1, rDemo2] = some res ∧ res.priorityIndex = 0 := by
  refine ⟨claim_C9_parse_wellformed.1 rDemo1 rDemo2 rDemo3, ?_⟩
  refine claim_C9_parse_wellformed.2 (s "Варіанти: [1, 2]\nПріоритет: 7 - бо") [rDemo1, rDemo2]
    (by decide) ?_
  intro q hq
  have hq7 : q = 7 := by
    have : priorityNumOf (s "Варіанти: [1, 2]\nПріоритет: 7 - бо") = some 7 := by decide
    rw [this] at hq
    cases hq
    rfl
  subst hq7
  right
  decide

/-- C2 (amended): the context filter returns a subset of its input; the
input is returned unchanged when no context category is detected *or* when
no entry scores positively; otherwise the output is exactly the entries with
a positive context score (zero-score entries are dropped, not kept at the
tail), sorted descending by score. -/
theorem claim_C2_amended (req : Str) (l : List Restaurant) :
    (∀ x ∈ filterByContext req l, x ∈ l) ∧
    (detectedContexts req = [] → filterByContext req l = l) ∧
    ((∀ r ∈ l, contextScore req r = 0) → filterByContext req l = l) ∧
    (detectedContexts req ≠ [] → (∃ r ∈ l, 0 < contextScore req r) →
      (filterByContext req l).Perm (l.filter fun r => decide (0 < contextScore req r)) ∧
      (filterByContext req l).Pairwise
        (fun a b => contextScore req b ≤ contextScore req a)) := by
  by_cases hdet : (detectedContexts req).isEmpty
  · have hd : detectedContexts req = [] := List.isEmpty_iff.mp hdet
    have hout : filterByContext req l = l := by
      unfold filterByContext
      rw [if_pos hdet]
    exact ⟨by rw [hout]; exact fun x h => h, fun _ => hout, fun _ => hout,
      fun hne _ => absurd hd hne⟩
  · set scored := l.filterMap
      (fun r => if 0 < contextScore req r then some (contextScore req r, r) else none)
      with hscored
    by_cases hsc : scored.isEmpty
    · have hout : filterByContext req l = l := by
        unfold filterByContext
        rw [if_neg hdet]
        simp only
        rw [if_pos (by rw [← hscored]; exact hsc)]
      refine ⟨by rw [hout]; exact fun x h => h, fun _ => hout, fun _ => hout, ?_⟩
      rintro _ ⟨r, hr, hpos⟩
      have : ((contextScore req r, r) : Nat × Restaurant) ∈ scored :=
        mem_ctx_scored.mpr ⟨hr, rfl, hpos⟩
      rw [List.isEmpty_iff.mp hsc] at this
      cases this
    · have hout : filterByContext req l =
          (List.insertionSort natScoreGE scored).map (·.2) := by
        unfold filterByContext
        rw [if_neg hdet]
        simp only
        rw [if_neg (by rw [← hscored]; exact hsc)]
      have hsubset : ∀ x ∈ filterByContext req l, x ∈ l := by
        intro x hx
        rw [hout] at hx
        obtain ⟨p, hp, rfl⟩ := List.mem_map.mp hx
        have hp' : p ∈ scored := (List.mem_insertionSort natScoreGE).mp hp
        exact (mem_ctx_scored.mp hp').1
      refine ⟨hsubset, ?_, ?_, ?_⟩
      · intro hd
        exact absurd (by rw [hd]; rfl) hdet
      · intro hz
        exfalso
        apply hsc
        rw [hscored]
        rw [List.filterMap_eq_nil_iff.mpr]
        · rfl
        · intro r hr
          rw [if_neg (by rw [hz r hr]; exact lt_irrefl 0)]
      · intro _ _
        constructor
        · rw [hout]
          refine ((List.perm_insertionSort natScoreGE scored).map (·.2)).trans ?_
          rw [show scored.map (·.2) = l.filter fun r => decide (0 < contextScore req r)
            from hscored ▸ ctx_scored_map_snd req l]
        · rw [hout]
          rw [List.pairwise_map]
          refine (List.sorted_insertionSort natScoreGE scored).imp_of_mem ?_
          intro a b ha hb hab
          have ha' := mem_ctx_scored.mp ((List.mem_insertionSort natScoreGE).mp ha)
          have hb' := mem_ctx_scored.mp ((List.mem_insertionSort natScoreGE).mp hb)
          have : b.1 ≤ a.1 := hab
          rw [ha'.2.1, hb'.2.1] at this
          exact this

/-- C2 (counterexample): for the request `романтично` over the two-entry
catalog `[rRomanticEx, rLoudEx]`, the context filter returns only the
romantic entry — the zero-score entry `rLoudEx` is removed, not kept at the
tail — so the output is not a permutation of the input as the claim
asserts. -/
theorem claim_C2_counterexample :
    filterByContext (s "романтично") [rRomanticEx, rLoudEx] = [rRomanticEx] ∧
    rLoudEx ∈ [rRomanticEx, rLoudEx] ∧ rLoudEx ∉ [rRomanticEx] ∧
    ¬ (filterByContext (s "романтично") [rRomanticEx, rLoudEx]).Perm
        [rRomanticEx, rLoudEx] := by
  refine ⟨by decide, by decide, by decide, ?_⟩
  intro hperm
  have hlen := hperm.length_eq
  rw [(by decide : filterByContext (s "романтично") [rRomanticEx, rLoudEx] =
      [rRomanticEx])] at hlen
  simp at hlen

/-- C2 (witness): the amended statement at the concrete request
`романтично` and catalog `[rRomanticEx, rLoudEx]`: the output is a
permutation of the positively scoring entries. -/
theorem claim_C2_witness :
    (filterByContext (s "романтично") [rRomanticEx, rLoudEx]).Perm
      ([rRomanticEx, rLoudEx].filter fun r =>
        decide (0 < contextScore (s "романтично") r)) :=
  ((claim_C2_amended (s "романтично") [rRomanticEx, rLoudEx]).2.2.2 (by decide)
    ⟨rRomanticEx, by decide, by decide⟩).1

/-- C6 (amended): the enhanced type filter returns a subset of its input;
with no detected type the input is unchanged; when the type filtering is
nonempty it is returned, and each of its entries matches a detected type;
but when the type filtering would be empty the code falls back to the *old*
type filter on the same input (which can itself narrow the list), not to the
unchanged input; the output is never empty for nonempty input. -/
theorem claim_C6_amended (req : Str) (l : List Restaurant) :
    (∀ x ∈ enhancedFilterByEstablishmentType req l, x ∈ l) ∧
    (detectedTypesEnhanced req = [] → enhancedFilterByEstablishmentType req l = l) ∧
    (l.filter (typeMatches (detectedTypesEnhanced req)) ≠ [] →
      enhancedFilterByEstablishmentType req l =
        l.filter (typeMatches (detectedTypesEnhanced req)) ∧
      ∀ x ∈ enhancedFilterByEstablishmentType req l,
        typeMatches (detectedTypesEnhanced req) x = true) ∧
    (l ≠ [] → detectedTypesEnhanced req ≠ [] →
      l.filter (typeMatches (detectedTypesEnhanced req)) = [] →
      enhancedFilterByEstablishmentType req l = filterByEstablishmentType req l) ∧
    (l ≠ [] → enhancedFilterByEstablishmentType req l ≠ []) := by
  by_cases hl : l.isEmpty
  · have hl' : l = [] := List.isEmpty_iff.mp hl
    subst hl'
    have hout : enhancedFilterByEstablishmentType req [] = [] := rfl
    refine ⟨?_, ?_, ?_, ?_, ?_⟩
    · intro x hx; rw [hout] at hx; cases hx
    · intro _; exact hout
    · intro hc; exact absurd rfl hc
    · intro hne; exact absurd rfl hne
    · intro hne; exact absurd rfl hne
  · have hlne : l ≠ [] := fun hc => by rw [hc] at hl; exact hl rfl
    by_cases hdet : (detectedTypesEnhanced req).isEmpty
    · have hdnil : detectedTypesEnhanced req = [] := List.isEmpty_iff.mp hdet
      have hout : enhancedFilterByEstablishmentType req l = l := by
        unfold enhancedFilterByEstablishmentType
        rw [if_neg hl, if_pos hdet]
      refine ⟨by rw [hout]; exact fun x h => h, fun _ => hout, ?_, ?_, ?_⟩
      · intro hfne
        exfalso
        apply hfne
        apply List.filter_eq_nil_iff.mpr
        intro r _
        rw [hdnil]
        intro hc
        cases hc
      · intro _ hdne _; exact absurd hdnil hdne
      · intro _; rw [hout]; exact hlne
    · by_cases hf : (l.filter (typeMatches (detectedTypesEnhanced req))).isEmpty
      · have hout : enhancedFilterByEstablishmentType req l =
            filterByEstablishmentType req l := by
          unfold enhancedFilterByEstablishmentType
          rw [if_neg hl, if_neg hdet, if_pos (by rw [List.isEmpty_iff.mp hf]; rfl)]
        refine ⟨?_, ?_, ?_, ?_, ?_⟩
        · intro x hx; rw [hout] at hx; exact filterByEstablishmentType_subset x hx
        · intro hd; exact absurd (by rw [hd]; rfl) hdet
        · intro hfne; exact absurd (List.isEmpty_iff.mp hf) hfne
        · intro _ _ _; exact hout
        · intro _; rw [hout]; exact filterByEstablishmentType_ne_nil hlne
      · have hfe : (l.filter (typeMatches (detectedTypesEnhanced req))).isEmpty = false := by
          cases h : (l.filter (typeMatches (detectedTypesEnhanced req))).isEmpty with
          | false => rfl
          | true => exact absurd h hf
        have hout : enhancedFilterByEstablishmentType req l =
            l.filter (typeMatches (detectedTypesEnhanced req)) := by
          unfold enhancedFilterByEstablishmentType
          rw [if_neg hl, if_neg hdet]
          simp only [hfe, Bool.false_and, Bool.false_eq_true, if_false]
        refine ⟨?_, ?_, ?_, ?_, ?_⟩
        · intro x hx; rw [hout] at hx; exact (List.mem_filter.mp hx).1
        · intro hd; exact absurd (by rw [hd]; rfl) hdet
        · intro _
          exact ⟨hout, fun x hx => (List.mem_filter.mp (hout ▸ hx)).2⟩
        · intro _ _ hfnil; exact absurd (by rw [hfnil]; rfl) hf
        · intro _
          rw [hout]
          intro hc
          exact hf (by rw [hc]; rfl)

/-- C6 (counterexample): for the request `святкувати кофе` the enhanced
detection finds only the coffee types (the old filter's keyword `святкув` is
absent from the enhanced table), no entry of `[rRestoranEx, rBarEx]` matches
them, and instead of returning the input unchanged the filter falls back to
the *old* filter, which detects `ресторан` via `святкув` and narrows the
list to `[rRestoranEx]` — an output that is neither the input (refuting the
fallback law) nor consistent with the detected coffee types. -/
theorem claim_C6_counterexample :
    detectedTypesEnhanced (s "святкувати кофе") = [kavYarnya, s "кафе"] ∧
    [rRestoranEx, rBarEx].filter
      (typeMatches (detectedTypesEnhanced (s "святкувати кофе"))) = [] ∧
    enhancedFilterByEstablishmentType (s "святкувати кофе") [rRestoranEx, rBarEx] =
      [rRestoranEx] ∧
    [rRestoranEx] ≠ [rRestoranEx, rBarEx] ∧
    typeMatches (detectedTypesEnhanced (s "святкувати кофе")) rRestoranEx = false := by
  refine ⟨by decide, by decide, by decide, ?_, by decide⟩
  decide

/-- C6 (witness): the amended statement applied to the same concrete input:
since the enhanced type filtering is empty, the output equals the old
filter's output. -/
theorem claim_C6_witness :
    enhancedFilterByEstablishmentType (s "святкувати кофе") [rRestoranEx, rBarEx] =
      filterByEstablishmentType (s "святкувати кофе") [rRestoranEx, rBarEx] ∧
    enhancedFilterByEstablishmentType (s "святкувати кофе") [rRestoranEx, rBarEx] ≠ [] := by
  have h := claim_C6_amended (s "святкувати кофе") [rRestoranEx, rBarEx]
  exact ⟨h.2.2.2.1 (by decide) (by decide) (by decide), h.2.2.2.2 (by decide)⟩

theorem map_if_sum_zero {α : Type _} (L : List α) (p : α → Bool) (w : α → Nat)
    (h : ∀ c ∈ L, p c = false) : (L.map fun c => if p c then w c else 0).sum = 0 := by
  induction L with
  | nil => rfl
  | cons c t ih =>
    rw [List.map_cons, List.sum_cons, h c (List.mem_cons_self c t),
      ih fun x hx => h x (List.mem_cons_of_mem c hx)]
    simp

theorem sushi_spec_zero (r : Restaurant)
    (h : ∀ kw ∈ getDishKeywords (s "суші"),
      strIn kw (lowerStr r.menu) = false ∧
      strIn kw (lowerStr r.cuisine) = false ∧
      strIn kw (lowerStr r.rname) = false) :
    specEntryScore (s "хочу суші") r = 0 := by
  unfold specEntryScore
  apply map_if_sum_zero
  intro c hc
  unfold searchCriteria at hc
  fin_cases hc
  case _ => exact Bool.and_eq_false_iff.mpr (Or.inl (by decide))
  case _ => exact Bool.and_eq_false_iff.mpr (Or.inl (by decide))
  case _ => exact Bool.and_eq_false_iff.mpr (Or.inl (by decide))
  case _ =>
    apply Bool.and_eq_false_iff.mpr
    right
    unfold restaurantHasCriterion
    rw [List.any_eq_false]
    intro col hcol
    intro hctrue
    rw [List.any_eq_true] at hctrue
    obtain ⟨kw, hkw, hs⟩ := hctrue
    have hkw' : kw ∈ getDishKeywords (s "суші") := by
      rw [show getDishKeywords (s "суші") =
        [s "суші", s "sushi", s "роли", s "ролл", s "сашімі"] from by decide]
      exact hkw
    obtain ⟨hm, hcu, hn⟩ := h kw hkw'
    fin_cases hcol
    · rw [show getColumn r (s "menu") = r.menu from rfl, hm] at hs; cases hs
    · rw [show getColumn r (s "cuisine") = r.cuisine from rfl, hcu] at hs; cases hs
    · rw [show getColumn r (s "name") = r.rname from rfl, hn] at hs; cases hs
  all_goals exact Bool.and_eq_false_iff.mpr (Or.inl (by decide))

/-- C3 (amended): for every *nonempty* catalog in which no entry mentions a
sushi synonym in its menu, cuisine, or name (so the comprehensive analyzer,
which also scans cuisine and name, finds no criterion for the request), the
dish gate on `хочу суші` returns `available = false` with dishes `[суші]`,
and the assembler short-circuits to the dish-not-found outcome for `суші`. -/
theorem claim_C3_amended (data shuffled : List Restaurant) (hne : data ≠ [])
    (h : ∀ r ∈ data, ∀ kw ∈ getDishKeywords (s "суші"),
      strIn kw (lowerStr r.menu) = false ∧
      strIn kw (lowerStr r.cuisine) = false ∧
      strIn kw (lowerStr r.rname) = false) :
    checkDishAvailability (s "хочу суші") data = (false, [s "суші"]) ∧
    getRecommendationPre data shuffled (s "хочу суші") =
      PreOracle.dishNotFound (s "суші") (dnfMessage (s "суші")) := by
  have hlow : ∀ kw ∈ getDishKeywords (s "суші"), lowerStr kw = kw := by decide
  have hreq : requestedDishes (s "хочу суші") = [s "суші"] := by decide
  have hfound : dishFoundInAnyRestaurant data (getDishKeywords (s "суші")) = false := by
    unfold dishFoundInAnyRestaurant
    rw [List.any_eq_false]
    intro r hr hc
    rw [List.any_eq_true] at hc
    obtain ⟨kw, hkw, hkwc⟩ := hc
    rw [if_pos (show cfgRegexBoundaries = true from rfl), hlow kw hkw,
      reSearchWB_eq_false (h r hr kw hkw).1] at hkwc
    cases hkwc
  have hgate : checkDishAvailability (s "хочу суші") data = (false, [s "суші"]) := by
    unfold checkDishAvailability
    rw [hreq]
    rw [if_neg (by intro hc; cases hc)]
    rw [if_pos (by rw [List.filter_cons, hfound]; rfl)]
  have hscore : ∀ r ∈ data, ¬ 0 < specEntryScore (s "хочу суші") r := by
    intro r hr
    rw [sushi_spec_zero r (h r hr)]
    exact lt_irrefl 0
  have hanalysis : comprehensiveContentAnalysis (s "хочу суші") data =
      (false, [], s "не знайдено специфічних критеріїв") := by
    unfold comprehensiveContentAnalysis
    rw [scoredOf_eq_nil_iff.mpr hscore]
    rfl
  refine ⟨hgate, ?_⟩
  unfold getRecommendationPre
  rw [if_neg (by intro hc; exact hne (List.isEmpty_iff.mp hc))]
  rw [hanalysis, hgate]
  rfl

/-- C3 (witness): the amended statement at the one-entry catalog
`[rPlainEx]` (menu `борщ`, no sushi anywhere). -/
theorem claim_C3_witness :
    checkDishAvailability (s "хочу суші") [rPlainEx] = (false, [s "суші"]) ∧
    getRecommendationPre [rPlainEx] [rPlainEx] (s "хочу суші") =
      PreOracle.dishNotFound (s "суші") (dnfMessage (s "суші")) :=
  claim_C3_amended [rPlainEx] [rPlainEx] (by decide) (by decide)

/-- C3 (counterexample): the claim quantifies only over catalogs whose
*menus* lack sushi.  For the catalog `[rSushiNameEx]` — menu empty, but the
*name* is `Суші Майстер` — the dish gate itself answers
`(false, [суші])` as claimed, yet the assembler does *not* return the
dish-not-found variant: the comprehensive analyzer matches the `суші`
criterion against the name column and routes the request to the normal
pipeline. -/
theorem claim_C3_counterexample :
    checkDishAvailability (s "хочу суші") [rSushiNameEx] = (false, [s "суші"]) ∧
    (∀ kw ∈ getDishKeywords (s "суші"),
      strIn kw (lowerStr rSushiNameEx.menu) = false) ∧
    (getRecommendationPre [rSushiNameEx] [rSushiNameEx] (s "хочу суші")).isDishNotFound =
      false ∧
    getRecommendationPre [rSushiNameEx] [rSushiNameEx] (s "хочу суші") =
      PreOracle.proceed [rSushiNameEx] := by
  exact ⟨by decide, by decide, by decide, by decide⟩

/-- C1 (amended): the comprehensive analyzer adds, per criterion matched by
both the request and one of the entry's designated columns, the criterion's
*weight only* (the number of matching columns does not contribute — scores
are in exact half-point units); it returns exactly the entries whose score
is at or above 0.7 × the top score, sorted descending, with
`found = (topScore > 0)`. -/
theorem claim_C1_amended (req : Str) (data : List Restaurant) :
    ((comprehensiveContentAnalysis req data).1 = true ↔
      ∃ r ∈ data, 0 < specEntryScore req r) ∧
    (∀ x ∈ (comprehensiveContentAnalysis req data).2.1,
      x.score = specEntryScore req x.restaurant) ∧
    ((comprehensiveContentAnalysis req data).2.1.map (·.restaurant)).Perm
      (data.filter fun r => decide (0 < specEntryScore req r) &&
        decide (7 * specTopScore req data ≤ 10 * specEntryScore req r)) ∧
    (comprehensiveContentAnalysis req data).2.1.Pairwise scoreGE := by
  set scored := scoredOf req data with hscored
  cases hs : List.insertionSort scoreGE scored with
  | nil =>
    have hscnil : scored = [] := by
      have hlen := (List.perm_insertionSort scoreGE scored).length_eq
      rw [hs] at hlen
      exact List.length_eq_zero.mp hlen.symm
    have hnopos : ∀ r ∈ data, ¬ 0 < specEntryScore req r := by
      intro r hr hpos
      have hmem : (⟨r, specEntryScore req r,
          (entryScoreImpl (lowerStr req) r).2⟩ : ScoredRestaurant) ∈ scored :=
        hscored ▸ mem_scoredOf.mpr ⟨r, hr, hpos, rfl⟩
      rw [hscnil] at hmem
      cases hmem
    have hout : comprehensiveContentAnalysis req data =
        (false, [], s "не знайдено специфічних критеріїв") := by
      unfold comprehensiveContentAnalysis
      rw [← hscored, hs]
    rw [hout]
    refine ⟨?_, ?_, ?_, ?_⟩
    · simp only [Bool.false_eq_true, false_iff]
      rintro ⟨r, hr, hpos⟩
      exact hnopos r hr hpos
    · intro x hx; cases hx
    · rw [List.filter_eq_nil_iff.mpr ?_]
      · exact List.Perm.nil
      · intro r hr hc
        rw [Bool.and_eq_true] at hc
        exact hnopos r hr (of_decide_eq_true hc.1)
    · exact List.Pairwise.nil
  | cons top rest =>
    have hperm : (top :: rest).Perm scored := hs ▸ List.perm_insertionSort scoreGE scored
    have hsortP : (top :: rest).Pairwise scoreGE :=
      hs ▸ List.sorted_insertionSort scoreGE scored
    have hmemchar : ∀ x ∈ (top :: rest), ∃ r ∈ data, 0 < specEntryScore req r ∧
        x = ⟨r, specEntryScore req r, (entryScoreImpl (lowerStr req) r).2⟩ := by
      intro x hx
      exact mem_scoredOf.mp (hscored ▸ hperm.mem_iff.mp hx)
    obtain ⟨r0, hr0, hpos0, heq0⟩ := hmemchar top (List.mem_cons_self top rest)
    have htopscore : top.score = specEntryScore req r0 := by rw [heq0]
    have htop : top.score = specTopScore req data := by
      apply le_antisymm
      · rw [htopscore]
        exact le_foldr_max_of_mem (List.mem_map_of_mem (specEntryScore req) hr0)
      · rcases foldr_max_mem_or 0 (data.map (specEntryScore req)) with hz | hmem
        · unfold specTopScore
          rw [hz, htopscore]
          exact Nat.le_of_lt hpos0
        · obtain ⟨r1, hr1, heq1⟩ := List.mem_map.mp hmem
          by_cases hp1 : 0 < specEntryScore req r1
          · have hmem1 : (⟨r1, specEntryScore req r1,
                (entryScoreImpl (lowerStr req) r1).2⟩ : ScoredRestaurant) ∈ (top :: rest) :=
              hperm.mem_iff.mpr (hscored ▸ mem_scoredOf.mpr ⟨r1, hr1, hp1, rfl⟩)
            rcases List.mem_cons.mp hmem1 with he | hr
            · unfold specTopScore
              rw [← heq1, ← he]
            · have := (List.pairwise_cons.mp hsortP).1 _ hr
              unfold specTopScore
              rw [← heq1]
              exact this
          · unfold specTopScore
            rw [← heq1]
            calc specEntryScore req r1 ≤ 0 := Nat.le_of_not_lt hp1
              _ ≤ top.score := Nat.zero_le _
    have hout : comprehensiveContentAnalysis req data =
        (true, (top :: rest).filter fun x => decide (7 * top.score ≤ 10 * x.score),
         s "знайдено " ++
           Nat.toDigits 10 ((top :: rest).filter
             fun x => decide (7 * top.score ≤ 10 * x.score)).length ++
           s " закладів що відповідають критеріям") := by
      unfold comprehensiveContentAnalysis
      rw [← hscored, hs]
    rw [hout]
    dsimp only
    refine ⟨?_, ?_, ?_, ?_⟩
    · simp only [true_iff]
      exact ⟨r0, hr0, hpos0⟩
    · intro x hx
      obtain ⟨r, hr, hpos, hxe⟩ := hmemchar x (List.mem_of_mem_filter hx)
      rw [hxe]
    · have e1 : ((top :: rest).filter fun x => decide (7 * top.score ≤ 10 * x.score)).Perm
          (scored.filter fun x => decide (7 * top.score ≤ 10 * x.score)) :=
        hperm.filter _
      have e2 := scored_filter_map_eq req (fun v => decide (7 * top.score ≤ 10 * v)) data
      rw [← htop]
      refine (e1.map (·.restaurant)).trans ?_
      rw [hscored, e2]
    · exact hsortP.filter _

/-- C1 (counterexample): for the request `піца` and the single entry
`rPizzaEx`, whose menu and cuisine both match the `піца` criterion
(2 distinct matching columns), the analyzer returns score 3.0 (6 half-point
units) — just the weight — whereas the claimed formula
`weight + 0.2 × matchingColumns` gives 3.4 (34 tenth-point units);
`5 · 6 = 30 ≠ 34` exhibits the disagreement. -/
theorem claim_C1_counterexample :
    (comprehensiveContentAnalysis (s "піца") [rPizzaEx]).2.1 =
      [⟨rPizzaEx, 6, [s "піца"]⟩] ∧
    matchingColumnsCount rPizzaEx
      ⟨s "піца", [s "піца", s "піцц", s "pizza"], [s "menu", s "cuisine", s "name"], 6⟩ = 2 ∧
    claimEntryScore (s "піца") rPizzaEx = 34 ∧
    5 * (6 : Nat) ≠ 34 :=
  ⟨by decide, by decide, by decide, by decide⟩

/-- C1 (witness): the amended statement at a concrete input: the analyzer
reports `found = true` for the request `піца` over `[rPizzaEx]`. -/
theorem claim_C1_witness :
    (comprehensiveContentAnalysis (s "піца") [rPizzaEx]).1 = true :=
  (claim_C1_amended (s "піца") [rPizzaEx]).1.mpr ⟨rPizzaEx, by decide, by decide⟩
